import Mathlib

/-!
# Verification of the conclave rewrite pipeline (`conclave/comp.py`)

This file gives a shallow embedding of the operator-DAG rewrite passes of
`conclave/comp.py` and proves/refutes the frozen claims about them.

The graph primitives (`conclave/dag.py`), the DSL constructors
(`conclave/lang.py`) and the trust-set helpers (`conclave/utils.py`) are not
part of the provided sources; wherever a definition embeds one of those it is
marked `Modelled from the spec:` and follows the natural-language
specification (sections 3, 4.A-4.C, 4.G of the spec).  Everything else is
translated directly from `conclave/comp.py`.

Conventions of the embedding:
* Python `set` objects holding party ids become `Finset Nat`.
* Python object identity becomes an explicit numeric node id; the DAG is a
  list of nodes, with `parents` / `children` edge lists holding ids.
  Reads that the source performs through a deterministic order
  (`get_sorted_parents`) sort by relation name, as the spec prescribes.
* Python exceptions / failed assertions become `Except String` errors.
* Aliasing of mutable Python objects is not modelled; passes are state
  transformers `Graph -> Graph` (or `Except String Graph`).
-/

namespace Conclave

/-- A column: name, positional index and per-column trust set (spec section 3). -/
structure Col where
  name : String
  idx : Nat
  trust_set : Finset Nat
deriving DecidableEq

/-- A relation: name, ordered columns and stored-with set (spec section 3). -/
structure Rel where
  name : String
  cols : List Col
  stored_with : Finset Nat
deriving DecidableEq

/-- Operator kinds, the tags of `conclave/dag.py` node classes. -/
inductive Kind where
  | create | project | filter | multiply | divide
  | aggregate | indexAggregate | hybridAggregate
  | join | joinFlags | flagJoin | hybridJoin | revealJoin | pubJoin
  | concat | concatCols | distinct | distinctCount
  | close | openOp | persist | shuffle
  | index | sortBy | compNeighs
deriving DecidableEq

/-- An operator node.  `id` stands in for Python object identity.  Fields that
are kind-specific (`selected_cols`, `group_cols`, `agg_col`, join columns,
`trusted_party`) default to empty values on kinds that do not use them. -/
structure Node where
  id : Nat
  kind : Kind
  out_rel : Rel
  parents : List Nat
  children : List Nat
  is_mpc : Bool
  selected_cols : List String := []
  group_cols : List Col := []
  agg_col : Option Col := none
  left_join_cols : List String := []
  right_join_cols : List String := []
  trusted_party : Nat := 0
deriving DecidableEq

/-- The operator DAG: the list of nodes it owns, in insertion order. -/
structure Graph where
  nodes : List Node
deriving DecidableEq

namespace Graph

/-- Look a node up by id. -/
def find (g : Graph) (i : Nat) : Option Node :=
  g.nodes.find? (fun n => n.id = i)

/-- Apply `f` to the node with id `i` (all other nodes unchanged). -/
def update (g : Graph) (i : Nat) (f : Node → Node) : Graph :=
  ⟨g.nodes.map (fun n => if n.id = i then f n else n)⟩

/-- Append a freshly created node. -/
def add (g : Graph) (n : Node) : Graph :=
  ⟨g.nodes ++ [n]⟩

/-- An id unused by any current node. -/
def freshId (g : Graph) : Nat :=
  (g.nodes.map (fun n => n.id)).foldl max 0 + 1

end Graph

/-- Strict lexicographic comparison of strings by character code (used to
model Python `sorted(..., key=lambda node: node.out_rel.name)`). -/
def strLt (a b : String) : Bool :=
  go a.data b.data
where
  go : List Char → List Char → Bool
  | [], [] => false
  | [], _ :: _ => true
  | _ :: _, [] => false
  | x :: xs, y :: ys =>
    if x.toNat < y.toNat then true
    else if y.toNat < x.toNat then false
    else go xs ys

/-- Stable insertion of a node into a name-sorted list (equal keys keep their
original relative order, as Python `sorted` is stable). -/
def insByName (n : Node) : List Node → List Node
  | [] => [n]
  | m :: ms => if strLt n.out_rel.name m.out_rel.name then n :: m :: ms
               else m :: insByName n ms

/-- Stable sort of nodes by output-relation name. -/
def sortByName : List Node → List Node
  | [] => []
  | n :: ns => insByName n (sortByName ns)

namespace Graph

/-- Modelled from the spec: `get_sorted_parents` of `conclave/dag.py` —
parents in deterministic order (sorted by output-relation name). -/
def sortedParents (g : Graph) (n : Node) : List Nat :=
  (sortByName (n.parents.filterMap g.find)).map (fun m => m.id)

/-- Modelled from the spec: `get_sorted_children` of `conclave/dag.py`. -/
def sortedChildren (g : Graph) (n : Node) : List Nat :=
  (sortByName (n.children.filterMap g.find)).map (fun m => m.id)

/-- The input relation of a unary node: the out-relation of its (single)
parent (`get_in_rel` of `conclave/dag.py`, modelled from the spec). -/
def inRel (g : Graph) (n : Node) : Option Rel :=
  match n.parents.head? with
  | none => none
  | some p => (g.find p).map (fun m => m.out_rel)

/-- All input relations, in sorted-parent order (`get_in_rels`). -/
def inRels (g : Graph) (n : Node) : List Rel :=
  ((g.sortedParents n).filterMap g.find).map (fun m => m.out_rel)

end Graph

/-- Modelled from the spec: `is_leaf` of `conclave/dag.py` — a node with no
children. -/
def Node.isLeaf (n : Node) : Bool :=
  n.children.isEmpty

/-- Modelled from the spec: `is_root` of `conclave/dag.py` — a root node
(no parents; the DSL only produces root `Create` nodes). -/
def Node.isRoot (n : Node) : Bool :=
  n.parents.isEmpty

/-- Modelled from the spec (section 4.C): `is_reversible` — true exactly for
`Project`, `Filter`, `Multiply`, `Divide`, `Concat`. -/
def Node.isReversible (n : Node) : Bool :=
  match n.kind with
  | .project | .filter | .multiply | .divide | .concat => true
  | _ => false

/-- Modelled from the spec (section 4.C): `is_boundary` — a `Concat` is a
boundary if its parents have differing stored-with sets. -/
def Graph.isBoundary (g : Graph) (n : Node) : Bool :=
  let sws := (g.inRels n).map (fun r => r.stored_with)
  !(sws.all (fun s => sws.all (fun t => s = t)))

/-- Modelled from the spec (section 4.C): `is_lower_boundary` — node is MPC
but at least one child is not. -/
def Graph.isLowerBoundary (g : Graph) (n : Node) : Bool :=
  n.is_mpc && (n.children.filterMap g.find).any (fun c => !c.is_mpc)

/-- Modelled from the spec (section 4.C): `requires_mpc` — true when the
inputs come from at least two distinct parties, or when the operator is
inherently cryptographic. -/
def Graph.requiresMpc (g : Graph) (n : Node) : Bool :=
  let inParties := ((g.inRels n).map (fun r => r.stored_with)).foldl (· ∪ ·) ∅
  2 ≤ inParties.card ||
    (match n.kind with
     | .close | .openOp | .hybridJoin | .hybridAggregate | .revealJoin => true
     | _ => false)

/-- Modelled from the spec (section 4.A): `insert_between(p, c, n)` — splice
`n` onto the edge p→c: remove p→c, add p→n and n→c.  `c` is optional because
`split_agg` calls it with `child = None` when the node has no child. -/
def Graph.insertBetween (g : Graph) (p : Nat) (c : Option Nat) (n : Nat) : Graph :=
  match c with
  | none =>
    (g.update p (fun m => { m with children := m.children ++ [n] })).update n
      (fun m => { m with parents := m.parents ++ [p] })
  | some c0 =>
    (((g.update p (fun m =>
        { m with children := m.children.filter (fun x => x ≠ c0) ++ [n] })).update n
      (fun m => { m with parents := m.parents ++ [p], children := m.children ++ [c0] })).update c0
      (fun m => { m with parents := m.parents.filter (fun x => x ≠ p) ++ [n] }))

/-- Modelled from the spec (section 4.A): `remove_between(p, c, n)` — the
inverse of `insert_between`: remove p→n and n→c, reconnect p→c and detach
`n` (empty parent and child sets). -/
def Graph.removeBetween (g : Graph) (p : Nat) (c : Option Nat) (n : Nat) : Graph :=
  let g1 := g.update p (fun m =>
    { m with children := m.children.filter (fun x => x ≠ n) ++ c.toList })
  let g2 := g1.update n (fun m => { m with parents := [], children := [] })
  match c with
  | none => g2
  | some c0 => g2.update c0 (fun m =>
      { m with parents := m.parents.filter (fun x => x ≠ n) ++ [p] })

/-- Modelled from the spec (section 4.A): `replace_parent` — in the child's
parent set, replace `oldId` by `newId`. -/
def Graph.replaceParent (g : Graph) (childId oldId newId : Nat) : Graph :=
  g.update childId (fun m =>
    { m with parents := m.parents.map (fun x => if x = oldId then newId else x) })

/-- Modelled from the spec (section 4.A): `replace_child` — in the parent's
child set, replace `oldId` by `newId`. -/
def Graph.replaceChild (g : Graph) (parentId oldId newId : Nat) : Graph :=
  g.update parentId (fun m =>
    { m with children := m.children.map (fun x => if x = oldId then newId else x) })

/-- Modelled from the spec (section 4.A): `insert_between_children(p, n)` —
put `n` between `p` and all of `p`'s current children. -/
def Graph.insertBetweenChildren (g : Graph) (p n : Nat) : Graph :=
  match g.find p with
  | none => g
  | some pn =>
    let cs := pn.children
    let g1 := g.update n (fun m => { m with parents := m.parents ++ [p], children := cs })
    let g2 := g1.update p (fun m => { m with children := [n] })
    cs.foldl (fun acc c => acc.replaceParent c p n) g2

/-- Modelled from the spec: `update_stored_with` of `conclave/dag.py` —
recompute the output stored-with of a unary node from its input relation. -/
def Graph.updateStoredWith (g : Graph) (i : Nat) : Graph :=
  match g.find i with
  | none => g
  | some n =>
    match g.inRel n with
    | none => g
    | some r => g.update i (fun m =>
        { m with out_rel := { m.out_rel with stored_with := r.stored_with } })

/-- Modelled from the spec (section 4.C): `update_out_rel_cols` — recompute
the output schema from the current inputs (a `Concat` takes its schema from
its first parent). -/
def Graph.updateOutRelCols (g : Graph) (i : Nat) : Graph :=
  match g.find i with
  | none => g
  | some n =>
    match (g.inRels n).head? with
    | none => g
    | some r => g.update i (fun m =>
        { m with out_rel := { m.out_rel with cols := r.cols } })

/-- The column names an operator references in its input(s), per kind. -/
def Node.referencedCols (n : Node) : List String :=
  match n.kind with
  | .project => n.selected_cols
  | .aggregate | .indexAggregate | .hybridAggregate =>
      (n.group_cols.map (fun c => c.name)) ++ (n.agg_col.toList.map (fun c => c.name))
  | .join | .hybridJoin | .flagJoin | .joinFlags | .pubJoin | .revealJoin =>
      n.left_join_cols ++ n.right_join_cols
  | _ => []

/-- Modelled from the spec (section 4.C): `update_op_specific_cols` —
re-resolve the operator's column references by name from its current input
relation(s); fails if a referenced name no longer exists.  In this embedding
references are held by name, so only the resolvability check is
observable. -/
def Graph.updateOpSpecificCols (g : Graph) (i : Nat) : Except String Graph :=
  match g.find i with
  | none => .ok g
  | some n =>
    let names := ((g.inRels n).map (fun r => r.cols.map (fun c => c.name))).flatten
    if (n.referencedCols).all (fun s => names.contains s) then .ok g
    else .error "column reference failed to resolve"

/-- One step of Kahn's algorithm: emit the first remaining node (in insertion
order) none of whose parents is still unemitted. -/
def topSortGo : Nat → List Node → List Nat → List Nat
  | 0, _, acc => acc.reverse
  | fuel + 1, rem, acc =>
    match rem.find? (fun nd => nd.parents.all (fun p => rem.all (fun m => m.id ≠ p))) with
    | none => acc.reverse
    | some nd => topSortGo fuel (rem.filter (fun m => m.id ≠ nd.id)) (nd.id :: acc)

/-- Modelled from the spec (section 4.A): `top_sort` — a deterministic
topological order with ties broken by insertion order. -/
def Graph.topSort (g : Graph) : List Nat :=
  topSortGo g.nodes.length g.nodes []

/-- `push_op_node_down` of `conclave/comp.py`: detach `bottom` (which must
have at most one child), reconnect `top` to that child, and insert a renamed
copy of `bottom` (suffix `_idx`) between each of `top`'s sorted parents and
`top`, refreshing each copy's stored-with from its new input. -/
def pushOpNodeDown (g : Graph) (topId botId : Nat) : Except String Graph := do
  let some bot := g.find botId | throw "node not found"
  if bot.children.length > 1 then
    throw "assertion failed: len(bottom_node.children) <= 1"
  let child := bot.children.head?
  let g0 := g.removeBetween topId child botId
  let some top := g0.find topId | throw "node not found"
  let gps := g0.sortedParents top
  let step := fun (acc : Graph) (p : Nat × Nat) =>
    let idx := p.1
    let gp := p.2
    let nid := acc.freshId
    let toInsert : Node := { bot with
      id := nid
      out_rel := { bot.out_rel with name := bot.out_rel.name ++ "_" ++ toString idx }
      parents := []
      children := [] }
    ((acc.add toInsert).insertBetween gp (some topId) nid).updateStoredWith nid
  return gps.enum.foldl step g0

/-- `split_agg` of `conclave/comp.py`: clone the aggregation (renamed with
suffix `_obl`, marked MPC, group column re-indexed to 0 and aggregation
column to 1) and insert the clone between the node and its (sole) child. -/
def splitAgg (g : Graph) (i : Nat) : Except String Graph :=
  match g.find i with
  | none => .error "node not found"
  | some node =>
    if 1 < node.children.length then
      .error "assertion failed: len(node.children) <= 1"
    else if node.group_cols.length ≠ 1 then
      .error "assertion failed: len(clone.group_cols) == 1"
    else
      match node.out_rel.cols.get? 0, node.out_rel.cols.get? 1 with
      | some gcol, some ocol =>
        let nid := g.freshId
        let clone : Node := { node with
          id := nid
          out_rel := { node.out_rel with name := node.out_rel.name ++ "_obl" }
          group_cols := [{ gcol with idx := 0 }]
          agg_col := some { ocol with idx := 1 }
          parents := []
          children := []
          is_mpc := true }
        .ok ((g.add clone).insertBetween i node.children.head? nid)
      | _, _ => .error "index out of range"

/-- `fork_node` of `conclave/comp.py`: clone a Concat once per child beyond
the first (in sorted-children order), the clone sharing the original's
parents and owning exactly one child. -/
def forkNode (g : Graph) (i : Nat) : Except String Graph := do
  let some node := g.find i | throw "node not found"
  match g.sortedChildren node with
  | [] => throw "StopIteration"
  | _ :: rest =>
    let step := fun (acc : Except String Graph) (p : Nat × Nat) => do
      let g1 ← acc
      let idx := p.1 + 1
      let child := p.2
      let some nd := g1.find i | throw "node not found"
      let nid := g1.freshId
      let clone : Node := { nd with
        id := nid
        out_rel := { nd.out_rel with name := node.out_rel.name ++ "_" ++ toString idx }
        parents := nd.parents
        children := [child] }
      let g2 := (g1.add clone)
      let g3 := nd.parents.foldl
        (fun a p0 => a.update p0 (fun m => { m with children := m.children ++ [nid] })) g2
      let g4 := g3.update i (fun m => { m with children := m.children.filter (fun x => x ≠ child) })
      let g5 := g4.replaceParent child i nid
      g5.updateOpSpecificCols child
    rest.enum.foldl step (.ok g)

/-- `MPCPushDown._do_commute`: the policy table — only (Aggregate over
Divide) commutes. -/
def doCommute (top bot : Node) : Bool :=
  match top.kind with
  | .aggregate | .indexAggregate | .hybridAggregate =>
    (match bot.kind with
     | .divide => true
     | _ => false)
  | _ => false

/-- Membership in the Python `Aggregate` class hierarchy. -/
def Kind.isAggregateInstance : Kind → Bool
  | .aggregate | .indexAggregate | .hybridAggregate => true
  | _ => false

/-- `MPCPushDown._rewrite_default`: refresh `is_mpc` from `requires_mpc`. -/
def rewriteDefault (g : Graph) (node : Node) : Graph :=
  g.update node.id (fun m => { m with is_mpc := g.requiresMpc m })

/-- `MPCPushDown._rewrite_unary_default` of `conclave/comp.py`. -/
def mpcPushDownUnaryDefault (g : Graph) (node : Node) : Except String Graph := do
  let some pid := node.parents.head? | throw "StopIteration"
  let some parent := g.find pid | throw "node not found"
  if parent.is_mpc then
    if node.isLeaf then
      return g.update node.id (fun m => { m with is_mpc := true })
    else
      if parent.kind = .concat && g.isBoundary parent then do
        let g1 ← pushOpNodeDown g pid node.id
        return g1.updateOutRelCols pid
      else if parent.kind.isAggregateInstance && doCommute parent node then
        match parent.parents.head? with
        | none => throw "StopIteration"
        | some apId => do
          let some aggParent := g.find apId | throw "node not found"
          if aggParent.kind = .concat && g.isBoundary aggParent then do
            if aggParent.children.length ≠ 1 then
              throw "assertion failed: len(concat_op.children) == 1"
            let g1 ← pushOpNodeDown g pid node.id
            let some agg1 := g1.find pid | throw "node not found"
            let some updId := agg1.parents.head? | throw "StopIteration"
            let g2 ← pushOpNodeDown g1 apId updId
            return g2.updateOutRelCols apId
          else
            return g.update node.id (fun m => { m with is_mpc := true })
      else
        return g.update node.id (fun m => { m with is_mpc := true })
  else
    return g

/-- `MPCPushDown._rewrite_aggregate` of `conclave/comp.py`. -/
def mpcPushDownAggregate (g : Graph) (node : Node) : Except String Graph := do
  let some pid := node.parents.head? | throw "StopIteration"
  let some parent := g.find pid | throw "node not found"
  if parent.is_mpc then
    if parent.kind = .concat && g.isBoundary parent then do
      let g1 ← splitAgg g node.id
      let g2 ← pushOpNodeDown g1 pid node.id
      return g2.updateOutRelCols pid
    else
      return g.update node.id (fun m => { m with is_mpc := true })
  else
    return g

/-- `MPCPushDown._rewrite_concat` of `conclave/comp.py`. -/
def mpcPushDownConcat (g : Graph) (node : Node) : Except String Graph :=
  if g.requiresMpc node then
    let g1 := g.update node.id (fun m => { m with is_mpc := true })
    match g1.find node.id with
    | none => .ok g1
    | some n1 =>
      if n1.children.length > 1 && g1.isBoundary n1 then forkNode g1 n1.id
      else .ok g1
  else .ok g

/-- The per-node dispatch of `DagRewriter.rewrite` specialised to
`MPCPushDown` (branch order follows the `isinstance` chain of the source;
kinds the source's chain does not list raise `Unknown class`). -/
def mpcPushDownNode (g : Graph) (i : Nat) : Except String Graph :=
  match g.find i with
  | none => .ok g
  | some node =>
    match node.kind with
    | .hybridAggregate => .ok g
    | .aggregate | .indexAggregate => mpcPushDownAggregate g node
    | .divide | .project | .filter | .multiply | .distinctCount =>
        mpcPushDownUnaryDefault g node
    | .joinFlags => .ok g
    | .revealJoin => .error "RevealJoin encountered during MPCPushDown"
    | .hybridJoin => .error "HybridJoin encountered during MPCPushDown"
    | .join | .flagJoin | .pubJoin | .concatCols => .ok (rewriteDefault g node)
    | .concat => mpcPushDownConcat g node
    | .close | .openOp | .create | .distinct => .ok g
    | .persist | .shuffle | .index | .sortBy | .compNeighs =>
        .error "Unknown class"

/-- `MPCPushDown.rewrite`: visit the topological order (computed once, up
front) and rewrite each node. -/
def mpcPushDown (g : Graph) : Except String Graph :=
  g.topSort.foldlM mpcPushDownNode g

/-! ## Lookup lemmas for the graph primitives -/

theorem Graph.find_some_id {g : Graph} {k : Nat} {n : Node} (h : g.find k = some n) :
    n.id = k := by
  have := List.find?_some h
  simpa using this

theorem Graph.find_some_mem {g : Graph} {k : Nat} {n : Node} (h : g.find k = some n) :
    n ∈ g.nodes :=
  List.mem_of_find?_eq_some h

theorem Graph.find_update_some {g : Graph} {j k : Nat} {f : Node → Node} {n : Node}
    (hf : ∀ m, (f m).id = m.id) (h : g.find k = some n) :
    (g.update j f).find k = some (if n.id = j then f n else n) := by
  unfold Graph.update Graph.find at *
  rw [List.find?_map]
  have hpred : ((fun m => decide (m.id = k)) ∘ (fun m => if m.id = j then f m else m)) =
      (fun m => decide (m.id = k)) := by
    funext m
    by_cases hm : m.id = j
    · simp [hm, hf]
    · simp [hm]
  rw [hpred, h]
  rfl

theorem Graph.find_update_self {g : Graph} {k : Nat} {f : Node → Node} {n : Node}
    (hf : ∀ m, (f m).id = m.id) (h : g.find k = some n) :
    (g.update k f).find k = some (f n) := by
  rw [Graph.find_update_some hf h, if_pos (Graph.find_some_id h)]

theorem Graph.find_update_other {g : Graph} {j k : Nat} {f : Node → Node} {n : Node}
    (hf : ∀ m, (f m).id = m.id) (h : g.find k = some n) (hk : k ≠ j) :
    (g.update j f).find k = some n := by
  have hne : n.id ≠ j := by rw [Graph.find_some_id h]; exact hk
  rw [Graph.find_update_some hf h, if_neg hne]

theorem Graph.find_update_none {g : Graph} {j k : Nat} {f : Node → Node}
    (hf : ∀ m, (f m).id = m.id) (h : g.find k = none) :
    (g.update j f).find k = none := by
  unfold Graph.update Graph.find at *
  rw [List.find?_map]
  have hpred : ((fun m => decide (m.id = k)) ∘ (fun m => if m.id = j then f m else m)) =
      (fun m => decide (m.id = k)) := by
    funext m
    by_cases hm : m.id = j
    · simp [hm, hf]
    · simp [hm]
  rw [hpred, h]
  rfl

theorem Graph.find_add_of_found {g : Graph} {k : Nat} {n m : Node} (h : g.find k = some n) :
    (g.add m).find k = some n := by
  unfold Graph.add Graph.find at *
  rw [List.find?_append, h]
  rfl

theorem Graph.find_add_new {g : Graph} {k : Nat} {m : Node}
    (h : g.find k = none) (hm : m.id = k) :
    (g.add m).find k = some m := by
  unfold Graph.add Graph.find at *
  rw [List.find?_append, h]
  simp [hm]

/-! ## Scenario S1 (claim C3): Concat → Project under MPCPushDown -/

/-- A two-column schema shared by the scenario relations. -/
def colA : Col := ⟨"a", 0, ∅⟩

/-- Second column of the scenario schema. -/
def colB : Col := ⟨"b", 1, ∅⟩

/-- The literal DAG of claim C3: `in1{1}` and `in2{2}` feed `Concat rel`,
which feeds `Project projA` — and nothing else, so `projA` is a leaf. -/
def c3GraphLiteral : Graph :=
  ⟨[ { id := 1, kind := .create, out_rel := ⟨"in1", [colA, colB], {1}⟩,
       parents := [], children := [3], is_mpc := false },
     { id := 2, kind := .create, out_rel := ⟨"in2", [colA, colB], {2}⟩,
       parents := [], children := [3], is_mpc := false },
     { id := 3, kind := .concat, out_rel := ⟨"rel", [colA, colB], {1, 2}⟩,
       parents := [1, 2], children := [4], is_mpc := false },
     { id := 4, kind := .project, out_rel := ⟨"projA", [colA, colB], {1, 2}⟩,
       parents := [3], children := [], is_mpc := false,
       selected_cols := ["a", "b"] } ]⟩

/-- The same DAG with `projA` additionally feeding a collect (`Open`) node,
so that `projA` is not a leaf. -/
def c3GraphColl : Graph :=
  ⟨[ { id := 1, kind := .create, out_rel := ⟨"in1", [colA, colB], {1}⟩,
       parents := [], children := [3], is_mpc := false },
     { id := 2, kind := .create, out_rel := ⟨"in2", [colA, colB], {2}⟩,
       parents := [], children := [3], is_mpc := false },
     { id := 3, kind := .concat, out_rel := ⟨"rel", [colA, colB], {1, 2}⟩,
       parents := [1, 2], children := [4], is_mpc := false },
     { id := 4, kind := .project, out_rel := ⟨"projA", [colA, colB], {1, 2}⟩,
       parents := [3], children := [5], is_mpc := false,
       selected_cols := ["a", "b"] },
     { id := 5, kind := .openOp, out_rel := ⟨"opened", [colA, colB], {1}⟩,
       parents := [4], children := [], is_mpc := true } ]⟩

/-- The outcome claim C3 expects of MPCPushDown: two non-MPC Projects
`projA_0{1}` and `projA_1{2}` that are parents of the still-MPC Concat
`rel{1,2}`. -/
def c3ExpectedOutcome (r : Except String Graph) : Bool :=
  match r with
  | .error _ => false
  | .ok g =>
    match g.nodes.find? (fun n => n.out_rel.name = "projA_0"),
          g.nodes.find? (fun n => n.out_rel.name = "projA_1"),
          g.find 3 with
    | some p0, some p1, some rel =>
      p0.kind == Kind.project && !p0.is_mpc && p0.out_rel.stored_with == {1} &&
      p1.kind == Kind.project && !p1.is_mpc && p1.out_rel.stored_with == {2} &&
      rel.kind == Kind.concat && rel.is_mpc && rel.out_rel.stored_with == {1, 2} &&
      p0.children == [rel.id] && p1.children == [rel.id] &&
      rel.parents.contains p0.id && rel.parents.contains p1.id
    | _, _, _ => false

/-- Claim C3, counterexample.  On the literal two-party DAG of the claim —
where `projA` is a leaf — MPCPushDown does not produce the claimed outcome:
no `projA_0` node exists in the result (the leaf rule of
`MPCPushDown._rewrite_unary_default` merely tags `projA` as MPC). -/
theorem claim_C3_counterexample :
    c3ExpectedOutcome (mpcPushDown c3GraphLiteral) = false ∧
    (match mpcPushDown c3GraphLiteral with
     | .ok g => (g.nodes.all (fun n => n.out_rel.name ≠ "projA_0")) &&
         (match g.find 4 with | some n => n.is_mpc | none => false)
     | .error _ => false) = true := by
  constructor
  · decide
  · decide

/-- Claim C3, amended: in the two-party DAG in which `in1{1}` and `in2{2}`
feed `Concat rel` feeding `Project projA`, *and `projA` is not a leaf*
(here it feeds a collect node), MPCPushDown yields two non-MPC Projects
`projA_0{1}` and `projA_1{2}` that are parents of the original Concat `rel`,
which remains MPC with stored-with `{1, 2}`. -/
theorem claim_C3_amended :
    c3ExpectedOutcome (mpcPushDown c3GraphColl) = true := by decide


/-! ## Claim C10: `split_agg` preconditions and clone shape -/


theorem Graph.insertBetween_find_new {g : Graph} {p : Nat} {c : Option Nat} {nid : Nat} {m : Node}
    (hm : g.find nid = some m) (hmp : nid ≠ p) (hmc : ∀ c0, c = some c0 → c0 ≠ nid) :
    (g.insertBetween p c nid).find nid =
      some { m with parents := m.parents ++ [p], children := m.children ++ c.toList } := by
  cases c with
  | none =>
    simp only [Graph.insertBetween]
    have s1 : (g.update p (fun m => { m with children := m.children ++ [nid] })).find nid = some m :=
      Graph.find_update_other (fun _ => rfl) hm hmp
    rw [Graph.find_update_self (f := fun m => { m with parents := m.parents ++ [p] })
      (fun _ => rfl) s1]
    simp
  | some c0 =>
    have hc0 : c0 ≠ nid := hmc c0 rfl
    simp only [Graph.insertBetween]
    have s1 : (g.update p (fun m =>
        { m with children := m.children.filter (fun x => x ≠ c0) ++ [nid] })).find nid = some m :=
      Graph.find_update_other (fun _ => rfl) hm hmp
    have s2 := Graph.find_update_self (f := fun m =>
        { m with parents := m.parents ++ [p], children := m.children ++ [c0] })
      (fun _ => rfl) s1
    rw [Graph.find_update_other (f := fun m =>
        { m with parents := m.parents.filter (fun x => x ≠ p) ++ [nid] })
      (fun _ => rfl) s2 (fun h => hc0 h.symm)]
    simp

theorem Graph.insertBetween_find_parent {g : Graph} {p : Nat} {c : Option Nat} {q : Nat} {pn : Node}
    (hp : g.find p = some pn) (hne : p ≠ q) :
    ∃ pn1, (g.insertBetween p c q).find p = some pn1 ∧
      pn1.children = (match c with
        | some c0 => pn.children.filter (fun x => x ≠ c0)
        | none => pn.children) ++ [q] := by
  cases c with
  | none =>
    simp only [Graph.insertBetween]
    have s1 := Graph.find_update_self (f := fun m => { m with children := m.children ++ [q] })
      (fun _ => rfl) hp
    rw [Graph.find_update_other (f := fun m => { m with parents := m.parents ++ [p] })
      (fun _ => rfl) s1 hne]
    exact ⟨_, rfl, rfl⟩
  | some c0 =>
    simp only [Graph.insertBetween]
    have s1 := Graph.find_update_self (f := fun m =>
        { m with children := m.children.filter (fun x => x ≠ c0) ++ [q] })
      (fun _ => rfl) hp
    have s2 := Graph.find_update_other (f := fun m =>
        { m with parents := m.parents ++ [p], children := m.children ++ [c0] })
      (fun _ => rfl) s1 hne
    by_cases hcp : p = c0
    · subst hcp
      have s3 := Graph.find_update_self (f := fun m =>
          { m with parents := m.parents.filter (fun x => x ≠ p) ++ [q] })
        (fun _ => rfl) s2
      rw [s3]
      exact ⟨_, rfl, rfl⟩
    · have s3 := Graph.find_update_other (f := fun m =>
          { m with parents := m.parents.filter (fun x => x ≠ p) ++ [q] })
        (fun _ => rfl) s2 hcp
      rw [s3]
      exact ⟨_, rfl, rfl⟩



/-- Technical lemma: on a list of length at most one, `head?.toList` is the
list itself. -/
theorem headToList {l : List Nat} (h : l.length ≤ 1) : l.head?.toList = l := by
  match l with
  | [] => rfl
  | [a] => rfl
  | a :: b :: t => simp at h

/-- The clone node that `split_agg` constructs (named for use in proofs). -/
def splitAggClone (g : Graph) (n : Node) (c0 c1 : Col) : Node :=
  { n with
    id := g.freshId
    out_rel := { n.out_rel with name := n.out_rel.name ++ "_obl" }
    group_cols := [{ c0 with idx := 0 }]
    agg_col := some { c1 with idx := 1 }
    parents := []
    children := []
    is_mpc := true }

/-- Claim C10: `split_agg` requires at most one child and exactly one group
column — any node with more than one child or a group-column list of length
other than 1 makes it fail an assertion; when the preconditions hold, the
inserted clone is MPC, renamed with suffix `_obl`, its group column is the
output group column re-indexed to 0 and its aggregation column the output
aggregation column re-indexed to 1, and the clone sits between the node and
its former child. -/
theorem claim_C10 (g : Graph) (i : Nat) (n : Node)
    (hn : g.find i = some n)
    (hfresh : g.find g.freshId = none)
    (hch : ∀ c ∈ n.children, ∃ cn, g.find c = some cn) :
    ((1 < n.children.length ∨ n.group_cols.length ≠ 1) →
        ∃ e, splitAgg g i = Except.error e) ∧
    (∀ c0 c1, n.children.length ≤ 1 → n.group_cols.length = 1 →
        n.out_rel.cols.get? 0 = some c0 → n.out_rel.cols.get? 1 = some c1 →
        ∃ g1, splitAgg g i = Except.ok g1 ∧
          (∃ clone, g1.find g.freshId = some clone ∧
            clone.is_mpc = true ∧
            clone.out_rel.name = n.out_rel.name ++ "_obl" ∧
            clone.group_cols = [{ c0 with idx := 0 }] ∧
            clone.agg_col = some { c1 with idx := 1 } ∧
            clone.kind = n.kind ∧
            clone.parents = [i] ∧
            clone.children = n.children) ∧
          (∃ n1, g1.find i = some n1 ∧ n1.children = [g.freshId])) := by
  have hine : i ≠ g.freshId := by
    intro heq
    rw [heq, hfresh] at hn
    exact Option.noConfusion hn
  have hcne : ∀ c ∈ n.children, c ≠ g.freshId := by
    intro c hc heq
    obtain ⟨cn, hcn⟩ := hch c hc
    rw [heq, hfresh] at hcn
    exact Option.noConfusion hcn
  constructor
  · intro hbad
    by_cases hc : 1 < n.children.length
    · exact ⟨_, by simp only [splitAgg, hn]; rw [if_pos hc]⟩
    · have hb : n.group_cols.length ≠ 1 := by tauto
      exact ⟨_, by simp only [splitAgg, hn]; rw [if_neg hc, if_pos hb]⟩
  · intro c0 c1 hlen hgrp h0 h1
    have hnotlt : ¬ (1 < n.children.length) := by omega
    have hgrp2 : ¬ (n.group_cols.length ≠ 1) := by omega
    have hsplit : splitAgg g i = Except.ok
        ((g.add (splitAggClone g n c0 c1)).insertBetween i n.children.head? g.freshId) := by
      simp only [splitAgg, hn]
      rw [if_neg hnotlt, if_neg hgrp2, h0, h1]
      rfl
    refine ⟨_, hsplit, ?_, ?_⟩
    · -- the clone in the result graph
      have hmc : ∀ cc, n.children.head? = some cc → cc ≠ g.freshId := by
        intro cc hcc
        exact hcne cc (List.mem_of_mem_head? hcc)
      have hmadd := Graph.find_add_new (g := g) (m := splitAggClone g n c0 c1) hfresh rfl
      have hnew := Graph.insertBetween_find_new (p := i) (c := n.children.head?)
          hmadd (fun h => hine h.symm) hmc
      refine ⟨_, hnew, rfl, rfl, rfl, rfl, rfl, by simp [splitAggClone], ?_⟩
      simp only [splitAggClone, List.nil_append]
      exact headToList hlen
    · have hpadd := Graph.find_add_of_found (m := splitAggClone g n c0 c1) hn
      obtain ⟨n1, hfind, hchild⟩ := Graph.insertBetween_find_parent
          (c := n.children.head?) (q := g.freshId) hpadd hine
      refine ⟨n1, hfind, ?_⟩
      rw [hchild]
      match hl : n.children, hlen with
      | [], _ => rfl
      | [a], _ => simp
      | a :: b :: t, hx => simp at hx

/-- Aggregate node of the concrete `split_agg` witness DAG. -/
def c10AggNode : Node :=
  { id := 2, kind := .aggregate, out_rel := ⟨"agged", [⟨"a", 0, ∅⟩, ⟨"total", 1, ∅⟩], {1}⟩,
    parents := [1], children := [3], is_mpc := false,
    group_cols := [colA], agg_col := some colB }

/-- Concrete DAG satisfying the `split_agg` preconditions. -/
def c10Graph : Graph :=
  ⟨[ { id := 1, kind := .create, out_rel := ⟨"rel", [colA, colB], {1}⟩,
       parents := [], children := [2], is_mpc := false },
     c10AggNode,
     { id := 3, kind := .openOp, out_rel := ⟨"opened", [⟨"a", 0, ∅⟩, ⟨"total", 1, ∅⟩], {1}⟩,
       parents := [2], children := [], is_mpc := true } ]⟩

/-- Aggregate node with two group columns (violates the precondition). -/
def c10BadNode : Node :=
  { c10AggNode with group_cols := [colA, colB] }

/-- Concrete DAG violating the `split_agg` group-column precondition. -/
def c10BadGraph : Graph :=
  ⟨[ { id := 1, kind := .create, out_rel := ⟨"rel", [colA, colB], {1}⟩,
       parents := [], children := [2], is_mpc := false },
     c10BadNode,
     { id := 3, kind := .openOp, out_rel := ⟨"opened", [⟨"a", 0, ∅⟩, ⟨"total", 1, ∅⟩], {1}⟩,
       parents := [2], children := [], is_mpc := true } ]⟩

/-- Witness for claim C10: both halves of `claim_C10` applied at concrete
DAGs — the two-group-column aggregate makes `split_agg` fail its assertion,
and the well-formed aggregate is split with the asserted clone shape. -/
theorem claim_C10_witness :
    (∃ e, splitAgg c10BadGraph 2 = Except.error e) ∧
    (∃ g1, splitAgg c10Graph 2 = Except.ok g1 ∧
      (∃ clone, g1.find c10Graph.freshId = some clone ∧
        clone.is_mpc = true ∧
        clone.out_rel.name = c10AggNode.out_rel.name ++ "_obl" ∧
        clone.group_cols = [{ (⟨"a", 0, ∅⟩ : Col) with idx := 0 }] ∧
        clone.agg_col = some { (⟨"total", 1, ∅⟩ : Col) with idx := 1 } ∧
        clone.kind = c10AggNode.kind ∧
        clone.parents = [2] ∧
        clone.children = c10AggNode.children) ∧
      (∃ n1, g1.find 2 = some n1 ∧ n1.children = [c10Graph.freshId])) := by
  constructor
  · exact (claim_C10 c10BadGraph 2 c10BadNode (by decide) (by decide)
      (by intro c hc
          simp only [c10BadNode, c10AggNode, List.mem_singleton] at hc
          subst hc
          exact ⟨_, rfl⟩)).1 (Or.inr (by decide))
  · exact (claim_C10 c10Graph 2 c10AggNode (by decide) (by decide)
      (by intro c hc
          simp only [c10AggNode, List.mem_singleton] at hc
          subst hc
          exact ⟨_, rfl⟩)).2 ⟨"a", 0, ∅⟩ ⟨"total", 1, ∅⟩
      (by decide) (by decide) (by decide) (by decide)

/-! ## Models of MPCPushUp, HybridOperatorOpt, InsertOpenAndCloseOps,
StoredWithSimplifier -/

/-- `MPCPushUp._rewrite_unary_default` of `conclave/comp.py`: a reversible
unary node at a lower MPC boundary whose parent is not a root is made local,
its output stored-with propagated backward into its input relation. -/
def mpcPushUpUnary (g : Graph) (i : Nat) : Except String Graph :=
  match g.find i with
  | none => .error "node not found"
  | some node =>
    match node.parents.head? with
    | none => .error "StopIteration"
    | some pid =>
      match g.find pid with
      | none => .error "node not found"
      | some par =>
        if node.isReversible && g.isLowerBoundary node && !par.isRoot then
          .ok ((g.update pid (fun m =>
              { m with out_rel :=
                  { m.out_rel with stored_with := node.out_rel.stored_with } })).update i
            (fun m => { m with is_mpc := false }))
        else .ok g

/-- `HybridOperatorOpt._rewrite_aggregate` of `conclave/comp.py`: convert an
MPC Aggregate whose first output column (the group column, by convention) has
a non-empty trust set into a `HybridAggregate` recording
`sorted(trust_set)[0]` as the selectively-trusted party.
`HybridAggregate.from_aggregate` and `replace_child` belong to
`conclave/dag.py`; the conversion is modelled from the spec ("convert the
node in place to HybridAggregate recording the STP"). -/
def hybridOpOptAggregate (g : Graph) (i : Nat) : Except String Graph :=
  match g.find i with
  | none => .error "node not found"
  | some node =>
    if node.is_mpc then
      match node.out_rel.cols.get? 0 with
      | none => .error "index out of range"
      | some gcol =>
        match (gcol.trust_set.sort (· ≤ ·)).head? with
        | none => .ok g
        | some stp =>
          .ok (g.update i (fun m =>
            { m with kind := .hybridAggregate, trusted_party := stp }))
    else .ok g

/-- `InsertOpenAndCloseOps._rewrite_default_unary` of `conclave/comp.py`:
a unary node whose input and output stored-with sets differ must be a lower
boundary; then an MPC `Open` (renamed with suffix `_open`, keeping the old
output stored-with) is inserted between the node and all its children, and
the node's output stored-with is reset to its input stored-with. -/
def insertOpenCloseUnary (g : Graph) (i : Nat) : Except String Graph :=
  match g.find i with
  | none => .error "node not found"
  | some node =>
    match g.inRel node with
    | none => .error "StopIteration"
    | some inr =>
      if inr.stored_with ≠ node.out_rel.stored_with then
        if g.isLowerBoundary node then
          let openRel : Rel := { node.out_rel with name := node.out_rel.name ++ "_open" }
          let nid := g.freshId
          let storeOp : Node := { id := nid, kind := .openOp, out_rel := openRel,
                                  parents := [], children := [], is_mpc := true }
          let g1 := g.update i (fun m =>
            { m with out_rel := { m.out_rel with stored_with := inr.stored_with } })
          .ok ((g1.add storeOp).insertBetweenChildren i nid)
        else
          .error ("different stored_with on non-lower-boundary unary op: " ++
            node.out_rel.name)
      else .ok g

/-- Per-node action of `StoredWithSimplifier.rewrite` of `conclave/comp.py`:
replace any stored-with set of cardinality above one by the all-parties
set. -/
def storedWithSimplifierNode (allParties : Finset Nat) (g : Graph) (i : Nat) : Graph :=
  match g.find i with
  | none => g
  | some node =>
    if 1 < node.out_rel.stored_with.card then
      g.update i (fun m =>
        { m with out_rel := { m.out_rel with stored_with := allParties } })
    else g

/-- `StoredWithSimplifier.rewrite` of `conclave/comp.py`: visit the
topological order and simplify each node's stored-with set. -/
def storedWithSimplifier (allParties : Finset Nat) (g : Graph) : Graph :=
  g.topSort.foldl (storedWithSimplifierNode allParties) g

/-! ## Claim C8: StoredWithSimplifier -/

/-- One `StoredWithSimplifier` visit only rewrites the visited node. -/
theorem swsNode_find (A : Finset Nat) (g : Graph) (j i : Nat) (n : Node)
    (h : g.find i = some n) :
    (storedWithSimplifierNode A g j).find i =
      some (if i = j ∧ 1 < n.out_rel.stored_with.card
            then { n with out_rel := { n.out_rel with stored_with := A } } else n) := by
  unfold storedWithSimplifierNode
  cases hj : g.find j with
  | none =>
    have hne : i ≠ j := by
      rintro rfl
      rw [h] at hj
      exact Option.noConfusion hj
    simp [hne, h]
  | some nj =>
    dsimp only
    by_cases hij : i = j
    · subst hij
      rw [h] at hj
      injection hj with hnj
      subst hnj
      by_cases hcard : 1 < n.out_rel.stored_with.card
      · rw [if_pos hcard, Graph.find_update_self (f := fun m =>
            { m with out_rel := { m.out_rel with stored_with := A } }) (fun _ => rfl) h]
        simp [hcard]
      · rw [if_neg hcard, h]
        simp [hcard]
    · by_cases hcard : 1 < nj.out_rel.stored_with.card
      · rw [if_pos hcard, Graph.find_update_other (f := fun m =>
            { m with out_rel := { m.out_rel with stored_with := A } }) (fun _ => rfl) h hij]
        simp [hij]
      · rw [if_neg hcard, h]
        simp [hij]

/-- Folding `StoredWithSimplifier` visits over any id list rewrites exactly
the visited nodes whose stored-with cardinality exceeds one. -/
theorem swsFold_find (A : Finset Nat) (is : List Nat) (g : Graph) (i : Nat) (n : Node)
    (h : g.find i = some n) :
    (is.foldl (storedWithSimplifierNode A) g).find i =
      some (if i ∈ is ∧ 1 < n.out_rel.stored_with.card
            then { n with out_rel := { n.out_rel with stored_with := A } } else n) := by
  induction is generalizing g n with
  | nil => simpa using h
  | cons j rest ih =>
    simp only [List.foldl_cons]
    have hstep := swsNode_find A g j i n h
    by_cases hij : i = j
    · subst hij
      by_cases hcard : 1 < n.out_rel.stored_with.card
      · rw [if_pos ⟨rfl, hcard⟩] at hstep
        rw [ih _ _ hstep]
        have hmem : i ∈ i :: rest := List.mem_cons_self i rest
        split_ifs with h1 h2 <;> first
        | rfl
        | (exfalso; tauto)
      · rw [if_neg (by tauto)] at hstep
        rw [ih _ _ hstep]
        rw [if_neg (by tauto)]
        rw [if_neg (by tauto)]
    · rw [if_neg (by tauto)] at hstep
      rw [ih _ _ hstep]
      simp [List.mem_cons, hij]


/-- Claim C8: after `StoredWithSimplifier` runs with universe `allParties`,
every node whose output stored-with set had cardinality above one carries
exactly `allParties`, and every node whose output stored-with set had
cardinality at most one is unchanged. -/
theorem claim_C8 (A : Finset Nat) (g : Graph) (i : Nat) (n : Node)
    (hn : g.find i = some n) (htop : i ∈ g.topSort) :
    (1 < n.out_rel.stored_with.card →
        (storedWithSimplifier A g).find i =
          some { n with out_rel := { n.out_rel with stored_with := A } }) ∧
    (n.out_rel.stored_with.card ≤ 1 →
        (storedWithSimplifier A g).find i = some n) := by
  constructor
  · intro hcard
    rw [storedWithSimplifier, swsFold_find A _ g i n hn, if_pos ⟨htop, hcard⟩]
  · intro hcard
    rw [storedWithSimplifier, swsFold_find A _ g i n hn, if_neg (by omega)]

/-- Concrete DAG for the C8 witness: node 3 is stored with two parties,
nodes 1 and 2 with one party each. -/
def c8Graph : Graph :=
  ⟨[ { id := 1, kind := .create, out_rel := ⟨"in1", [colA], {1}⟩,
       parents := [], children := [3], is_mpc := false },
     { id := 2, kind := .create, out_rel := ⟨"in2", [colA], {2}⟩,
       parents := [], children := [3], is_mpc := false },
     { id := 3, kind := .concat, out_rel := ⟨"rel", [colA], {1, 2}⟩,
       parents := [1, 2], children := [], is_mpc := true } ]⟩

/-- Witness for claim C8 at the concrete DAG: the two-party Concat output is
replaced by the universe `{1, 2, 3}`, the single-party input is untouched. -/
theorem claim_C8_witness :
    (storedWithSimplifier {1, 2, 3} c8Graph).find 3 =
      some { id := 3, kind := .concat, out_rel := ⟨"rel", [colA], {1, 2, 3}⟩,
             parents := [1, 2], children := [], is_mpc := true } ∧
    (storedWithSimplifier {1, 2, 3} c8Graph).find 1 =
      some { id := 1, kind := .create, out_rel := ⟨"in1", [colA], {1}⟩,
             parents := [], children := [3], is_mpc := false } := by
  constructor
  · exact (claim_C8 {1, 2, 3} c8Graph 3
      { id := 3, kind := .concat, out_rel := ⟨"rel", [colA], {1, 2}⟩,
        parents := [1, 2], children := [], is_mpc := true }
      (by decide) (by decide)).1 (by decide)
  · exact (claim_C8 {1, 2, 3} c8Graph 1
      { id := 1, kind := .create, out_rel := ⟨"in1", [colA], {1}⟩,
        parents := [], children := [3], is_mpc := false }
      (by decide) (by decide)).2 (by decide)


/-! ## Claims C7 and C6: MPCPushUp unary rule and HybridOperatorOpt -/

/-- Claim C7: an `MPCPushUp`-visited unary node that is reversible, a lower
boundary, and whose parent is not a root is made local (`is_mpc := false`)
with its input relation's stored-with set to a copy of its output relation's
stored-with; a unary node failing any of the three conditions is left
unchanged. -/
theorem claim_C7 (g : Graph) (i : Nat) (n : Node) (pid : Nat) (par : Node)
    (hn : g.find i = some n)
    (hpar : n.parents.head? = some pid)
    (hp : g.find pid = some par)
    (hpi : pid ≠ i) :
    (n.isReversible = true → g.isLowerBoundary n = true → par.isRoot = false →
      ∃ g1, mpcPushUpUnary g i = Except.ok g1 ∧
        g1.find i = some { n with is_mpc := false } ∧
        g1.find pid = some { par with out_rel :=
          { par.out_rel with stored_with := n.out_rel.stored_with } } ∧
        (∀ k nk, k ≠ i → k ≠ pid → g.find k = some nk → g1.find k = some nk)) ∧
    ((n.isReversible = false ∨ g.isLowerBoundary n = false ∨ par.isRoot = true) →
      mpcPushUpUnary g i = Except.ok g) := by
  constructor
  · intro hrev hlow hroot
    refine ⟨(g.update pid (fun m =>
        { m with out_rel :=
            { m.out_rel with stored_with := n.out_rel.stored_with } })).update i
        (fun m => { m with is_mpc := false }), ?_, ?_, ?_, ?_⟩
    · unfold mpcPushUpUnary
      rw [hn]
      dsimp only
      rw [hpar]
      dsimp only
      rw [hp]
      dsimp only
      rw [if_pos (by simp [hrev, hlow, hroot])]
    · have s1 := Graph.find_update_other (f := fun m =>
          { m with out_rel := { m.out_rel with stored_with := n.out_rel.stored_with } })
        (fun _ => rfl) hn hpi.symm
      exact Graph.find_update_self (f := fun m => { m with is_mpc := false })
        (fun _ => rfl) s1
    · have s1 := Graph.find_update_self (f := fun m =>
          { m with out_rel := { m.out_rel with stored_with := n.out_rel.stored_with } })
        (fun _ => rfl) hp
      exact Graph.find_update_other (f := fun m => { m with is_mpc := false })
        (fun _ => rfl) s1 hpi
    · intro k nk hki hkp hfind
      have s1 := Graph.find_update_other (f := fun m =>
          { m with out_rel := { m.out_rel with stored_with := n.out_rel.stored_with } })
        (fun _ => rfl) hfind hkp
      exact Graph.find_update_other (f := fun m => { m with is_mpc := false })
        (fun _ => rfl) s1 hki
  · intro hfail
    unfold mpcPushUpUnary
    rw [hn]
    dsimp only
    rw [hpar]
    dsimp only
    rw [hp]
    dsimp only
    rw [if_neg]
    rcases hfail with h | h | h <;> simp [h]



/-- Root node of the C7 witness DAG. -/
def c7Node1 : Node :=
  { id := 1, kind := .create, out_rel := ⟨"inA", [colA, colB], {1}⟩,
    parents := [], children := [2], is_mpc := false }

/-- Middle MPC Project of the C7 witness DAG (parent of the rewritten node). -/
def c7Node2 : Node :=
  { id := 2, kind := .project, out_rel := ⟨"p1", [colA, colB], {1, 2}⟩,
    parents := [1], children := [3], is_mpc := true, selected_cols := ["a", "b"] }

/-- The reversible lower-boundary Project the C7 witness rewrites. -/
def c7Node3 : Node :=
  { id := 3, kind := .project, out_rel := ⟨"p2", [colA, colB], {1}⟩,
    parents := [2], children := [4], is_mpc := true, selected_cols := ["a", "b"] }

/-- Local collect node of the C7 witness DAG. -/
def c7Node4 : Node :=
  { id := 4, kind := .openOp, out_rel := ⟨"opened", [colA, colB], {1}⟩,
    parents := [3], children := [], is_mpc := false }

/-- Concrete DAG for the C7 witness. -/
def c7Graph : Graph := ⟨[c7Node1, c7Node2, c7Node3, c7Node4]⟩

/-- Witness for claim C7: node 3 (reversible, lower boundary, non-root
parent) is made local and its input stored-with reset; node 2 (not a lower
boundary) is left unchanged. -/
theorem claim_C7_witness :
    (∃ g1, mpcPushUpUnary c7Graph 3 = Except.ok g1 ∧
      g1.find 3 = some { c7Node3 with is_mpc := false } ∧
      g1.find 2 = some { c7Node2 with out_rel :=
        { c7Node2.out_rel with stored_with := c7Node3.out_rel.stored_with } }) ∧
    mpcPushUpUnary c7Graph 2 = Except.ok c7Graph := by
  constructor
  · obtain ⟨g1, h1, h2, h3, _⟩ := (claim_C7 c7Graph 3 c7Node3 2 c7Node2
      (by decide) (by decide) (by decide) (by decide)).1 (by decide) (by decide) (by decide)
    exact ⟨g1, h1, h2, h3⟩
  · exact (claim_C7 c7Graph 2 c7Node2 1 c7Node1
      (by decide) (by decide) (by decide) (by decide)).2 (Or.inr (Or.inl (by decide)))

/-- Claim C6: `HybridOperatorOpt` converts every MPC Aggregate whose group
output column has a non-empty trust set into a HybridAggregate whose trusted
party is the smallest id in that trust set, and leaves the node unchanged
when the trust set is empty or the node is not MPC. -/
theorem claim_C6 (g : Graph) (i : Nat) (n : Node) (gcol : Col)
    (hn : g.find i = some n)
    (hcol : n.out_rel.cols.get? 0 = some gcol) :
    (n.is_mpc = true → gcol.trust_set.Nonempty →
      ∃ stp, stp ∈ gcol.trust_set ∧ (∀ x ∈ gcol.trust_set, stp ≤ x) ∧
        ∃ g1, hybridOpOptAggregate g i = Except.ok g1 ∧
          g1.find i = some { n with kind := Kind.hybridAggregate, trusted_party := stp } ∧
          (∀ k nk, k ≠ i → g.find k = some nk → g1.find k = some nk)) ∧
    ((n.is_mpc = false ∨ gcol.trust_set = ∅) → hybridOpOptAggregate g i = Except.ok g) := by
  constructor
  · intro hmpc hne
    obtain ⟨a, ha⟩ := hne
    have hasort : a ∈ gcol.trust_set.sort (· ≤ ·) := (Finset.mem_sort _).mpr ha
    cases hsort : gcol.trust_set.sort (· ≤ ·) with
    | nil =>
      rw [hsort] at hasort
      exact absurd hasort (List.not_mem_nil a)
    | cons stp rest =>
      have hsorted := Finset.sort_sorted (· ≤ ·) gcol.trust_set
      rw [hsort] at hsorted
      have hmem : stp ∈ gcol.trust_set := by
        have hx : stp ∈ gcol.trust_set.sort (· ≤ ·) := by
          rw [hsort]
          exact List.mem_cons_self _ _
        exact (Finset.mem_sort _).mp hx
      have hmin : ∀ x ∈ gcol.trust_set, stp ≤ x := by
        intro x hx
        have hxs : x ∈ stp :: rest := by
          rw [← hsort]
          exact (Finset.mem_sort _).mpr hx
        rcases List.mem_cons.mp hxs with h | h
        · exact h ▸ le_refl _
        · exact (List.sorted_cons.mp hsorted).1 x h
      refine ⟨stp, hmem, hmin, g.update i (fun m =>
          { m with kind := Kind.hybridAggregate, trusted_party := stp }), ?_, ?_, ?_⟩
      · unfold hybridOpOptAggregate
        rw [hn]
        dsimp only
        rw [hmpc, if_pos rfl, hcol]
        dsimp only
        rw [hsort]
        rfl
      · exact Graph.find_update_self (f := fun m =>
          { m with kind := Kind.hybridAggregate, trusted_party := stp }) (fun _ => rfl) hn
      · intro k nk hk hfind
        exact Graph.find_update_other (f := fun m =>
          { m with kind := Kind.hybridAggregate, trusted_party := stp }) (fun _ => rfl) hfind hk
  · intro hfail
    rcases hfail with h | h
    · unfold hybridOpOptAggregate
      rw [hn]
      dsimp only
      rw [h, if_neg (by simp)]
    · unfold hybridOpOptAggregate
      rw [hn]
      dsimp only
      by_cases hmpc : n.is_mpc = true
      · rw [hmpc, if_pos rfl, hcol]
        dsimp only
        rw [h, Finset.sort_empty]
        rfl
      · rw [Bool.not_eq_true] at hmpc
        rw [hmpc, if_neg (by simp)]



/-- MPC Aggregate node of the C6 witness, group output column trusted by
parties 2 and 3. -/
def c6Node : Node :=
  { id := 2, kind := .aggregate,
    out_rel := ⟨"agged", [⟨"a", 0, {2, 3}⟩, ⟨"total", 1, ∅⟩], {1, 2}⟩,
    parents := [1], children := [], is_mpc := true,
    group_cols := [⟨"a", 0, {2, 3}⟩], agg_col := some ⟨"b", 1, ∅⟩ }

/-- Concrete DAG for the positive half of the C6 witness. -/
def c6Graph : Graph :=
  ⟨[ { id := 1, kind := .create, out_rel := ⟨"rel", [colA, colB], {1}⟩,
       parents := [], children := [2], is_mpc := false },
     c6Node ]⟩

/-- The same aggregate, not MPC (negative half of the C6 witness). -/
def c6LocalNode : Node := { c6Node with is_mpc := false }

/-- Concrete DAG for the negative half of the C6 witness. -/
def c6LocalGraph : Graph :=
  ⟨[ { id := 1, kind := .create, out_rel := ⟨"rel", [colA, colB], {1}⟩,
       parents := [], children := [2], is_mpc := false },
     c6LocalNode ]⟩

/-- Witness for claim C6: the MPC aggregate with trust set `{2, 3}` is
converted to a HybridAggregate (trusted party in the set), and the non-MPC
aggregate is left unchanged. -/
theorem claim_C6_witness :
    (∃ stp, stp ∈ ({2, 3} : Finset Nat) ∧
      ∃ g1, hybridOpOptAggregate c6Graph 2 = Except.ok g1 ∧
        g1.find 2 = some { c6Node with kind := Kind.hybridAggregate, trusted_party := stp }) ∧
    hybridOpOptAggregate c6LocalGraph 2 = Except.ok c6LocalGraph := by
  constructor
  · obtain ⟨stp, hmem, _, g1, hok, hfind, _⟩ := (claim_C6 c6Graph 2 c6Node ⟨"a", 0, {2, 3}⟩
      (by decide) (by decide)).1 (by decide) ⟨2, by decide⟩
    exact ⟨stp, hmem, g1, hok, hfind⟩
  · exact (claim_C6 c6LocalGraph 2 c6LocalNode ⟨"a", 0, {2, 3}⟩
      (by decide) (by decide)).2 (Or.inl (by decide))


/-! ## Claim C5: InsertOpenAndCloseOps unary rule -/

/-- Mapping a parent replacement twice is the same as mapping it once. -/
theorem mapReplaceIdem (oldId newId : Nat) (l : List Nat) :
    (l.map (fun x => if x = oldId then newId else x)).map
        (fun x => if x = oldId then newId else x) =
      l.map (fun x => if x = oldId then newId else x) := by
  rw [List.map_map]
  apply List.map_congr_left
  intro x _
  by_cases hx : x = oldId
  · simp only [Function.comp, hx, if_pos rfl]
    split_ifs <;> rfl
  · simp [Function.comp, hx]

/-- `replace_parent` only rewrites the addressed child node. -/
theorem replaceParentNode_find (g : Graph) (c0 oldId newId : Nat) (c : Nat) (cn : Node)
    (h : g.find c = some cn) :
    (g.replaceParent c0 oldId newId).find c =
      some (if c = c0 then
        { cn with parents := cn.parents.map (fun x => if x = oldId then newId else x) }
      else cn) := by
  unfold Graph.replaceParent
  by_cases hc : c = c0
  · subst hc
    rw [Graph.find_update_self (f := fun m =>
        { m with parents := m.parents.map (fun x => if x = oldId then newId else x) })
      (fun _ => rfl) h, if_pos rfl]
  · rw [Graph.find_update_other (f := fun m =>
        { m with parents := m.parents.map (fun x => if x = oldId then newId else x) })
      (fun _ => rfl) h hc, if_neg hc]

/-- Folding `replace_parent` over a child list rewrites exactly the parents
of the listed children. -/
theorem foldReplaceParent_find (cs : List Nat) (g : Graph) (oldId newId : Nat)
    (c : Nat) (cn : Node) (h : g.find c = some cn) :
    (cs.foldl (fun acc c1 => acc.replaceParent c1 oldId newId) g).find c =
      some (if c ∈ cs then
        { cn with parents := cn.parents.map (fun x => if x = oldId then newId else x) }
      else cn) := by
  induction cs generalizing g cn with
  | nil => simpa using h
  | cons j rest ih =>
    simp only [List.foldl_cons]
    have hstep := replaceParentNode_find g j oldId newId c cn h
    by_cases hcj : c = j
    · rw [if_pos hcj] at hstep
      rw [ih _ _ hstep]
      have hmem : c ∈ j :: rest := by simp [hcj]
      rw [if_pos hmem]
      split_ifs with h1
      · apply congrArg
        congr 1
        exact mapReplaceIdem oldId newId cn.parents
      · rfl
    · rw [if_neg hcj] at hstep
      rw [ih _ _ hstep]
      simp [List.mem_cons, hcj]



/-- Reduced form of `insert_between_children` once the parent is known. -/
theorem Graph.insertBetweenChildren_eq {g : Graph} {p nid : Nat} {pn : Node}
    (hp : g.find p = some pn) :
    g.insertBetweenChildren p nid =
      pn.children.foldl (fun acc c => acc.replaceParent c p nid)
        ((g.update nid (fun m =>
            { m with parents := m.parents ++ [p], children := pn.children })).update p
          (fun m => { m with children := [nid] })) := by
  unfold Graph.insertBetweenChildren
  rw [hp]

/-- The `Open` node that `InsertOpenAndCloseOps._rewrite_default_unary`
creates (named for use in proofs). -/
def iocOpenNode (g : Graph) (n : Node) : Node :=
  { id := g.freshId, kind := .openOp,
    out_rel := { n.out_rel with name := n.out_rel.name ++ "_open" },
    parents := [], children := [], is_mpc := true }

/-- Claim C5: a unary MPC node whose input and output stored-with sets
differ is rewritten by inserting an MPC `Open` between it and all of its
children and resetting its output stored-with to the input stored-with when
it is a lower boundary, and makes the pass fail with an error naming the
node otherwise. -/
theorem claim_C5 (g : Graph) (i : Nat) (n : Node) (inr : Rel)
    (hn : g.find i = some n)
    (hmpc : n.is_mpc = true)
    (hin : g.inRel n = some inr)
    (hdiff : inr.stored_with ≠ n.out_rel.stored_with)
    (hfresh : g.find g.freshId = none)
    (hch : ∀ c ∈ n.children, ∃ cn, g.find c = some cn) :
    (g.isLowerBoundary n = true →
      ∃ g1, insertOpenCloseUnary g i = Except.ok g1 ∧
        (∃ op, g1.find g.freshId = some op ∧ op.kind = Kind.openOp ∧ op.is_mpc = true ∧
          op.out_rel.name = n.out_rel.name ++ "_open" ∧
          op.out_rel.stored_with = n.out_rel.stored_with ∧
          op.parents = [i] ∧ op.children = n.children) ∧
        (∃ n1, g1.find i = some n1 ∧ n1.out_rel.stored_with = inr.stored_with ∧
          n1.children = [g.freshId] ∧ n1.is_mpc = n.is_mpc ∧ n1.kind = n.kind) ∧
        (∀ c ∈ n.children, c ≠ i → ∀ cn, g.find c = some cn →
          ∃ cn1, g1.find c = some cn1 ∧
            cn1.parents = cn.parents.map (fun x => if x = i then g.freshId else x) ∧
            cn1.children = cn.children)) ∧
    (g.isLowerBoundary n = false →
      insertOpenCloseUnary g i =
        Except.error ("different stored_with on non-lower-boundary unary op: " ++
          n.out_rel.name)) := by
  have hine : i ≠ g.freshId := by
    intro heq
    rw [heq, hfresh] at hn
    exact Option.noConfusion hn
  have hcne : ∀ c ∈ n.children, c ≠ g.freshId := by
    intro c hc heq
    obtain ⟨cn, hcn⟩ := hch c hc
    rw [heq, hfresh] at hcn
    exact Option.noConfusion hcn
  constructor
  · intro hlow
    -- the graph after resetting the node's stored-with and adding the Open
    have hswn : (g.update i (fun m =>
        { m with out_rel := { m.out_rel with stored_with := inr.stored_with } })).find i =
        some { n with out_rel := { n.out_rel with stored_with := inr.stored_with } } :=
      Graph.find_update_self (fun _ => rfl) hn
    have hBn := Graph.find_add_of_found (m := iocOpenNode g n) hswn
    have hBofresh : (g.update i (fun m =>
        { m with out_rel := { m.out_rel with stored_with := inr.stored_with } })).find g.freshId =
        none :=
      Graph.find_update_none (fun _ => rfl) hfresh
    have hBo := Graph.find_add_new (m := iocOpenNode g n) hBofresh rfl
    have hE : insertOpenCloseUnary g i = Except.ok
        (((g.update i (fun m =>
            { m with out_rel := { m.out_rel with stored_with := inr.stored_with } })).add
          (iocOpenNode g n)).insertBetweenChildren i g.freshId) := by
      unfold insertOpenCloseUnary
      rw [hn]
      dsimp only
      rw [hin]
      dsimp only
      rw [if_pos hdiff, if_pos hlow]
      rfl
    rw [Graph.insertBetweenChildren_eq hBn] at hE
    refine ⟨_, hE, ?_, ?_, ?_⟩
    · -- the Open node in the result
      have hC := Graph.find_update_self (f := fun m =>
          { m with
            parents := m.parents ++ [i]
            children := ({ n with out_rel :=
              { n.out_rel with stored_with := inr.stored_with } } : Node).children })
        (fun _ => rfl) hBo
      have hD := Graph.find_update_other (f := fun m => { m with children := [g.freshId] })
        (fun _ => rfl) hC hine.symm
      have hF := foldReplaceParent_find (({ n with out_rel :=
          { n.out_rel with stored_with := inr.stored_with } } : Node).children)
        _ i g.freshId _ _ hD
      rw [if_neg (by
        intro hmem
        exact hcne _ hmem rfl)] at hF
      exact ⟨_, hF, rfl, rfl, rfl, rfl, rfl, rfl⟩
    · -- the rewritten node itself
      have hC := Graph.find_update_other (f := fun m =>
          { m with
            parents := m.parents ++ [i]
            children := ({ n with out_rel :=
              { n.out_rel with stored_with := inr.stored_with } } : Node).children })
        (fun _ => rfl) hBn hine
      have hD := Graph.find_update_self (f := fun m => { m with children := [g.freshId] })
        (fun _ => rfl) hC
      have hF := foldReplaceParent_find (({ n with out_rel :=
          { n.out_rel with stored_with := inr.stored_with } } : Node).children)
        _ i g.freshId _ _ hD
      by_cases hmem : i ∈ ({ n with out_rel :=
          { n.out_rel with stored_with := inr.stored_with } } : Node).children
      · rw [if_pos hmem] at hF
        exact ⟨_, hF, rfl, rfl, rfl, rfl⟩
      · rw [if_neg hmem] at hF
        exact ⟨_, hF, rfl, rfl, rfl, rfl⟩
    · -- the former children
      intro c hc hci cn hcn
      have h1 := Graph.find_update_other (f := fun m =>
          { m with out_rel := { m.out_rel with stored_with := inr.stored_with } })
        (fun _ => rfl) hcn hci
      have h2 := Graph.find_add_of_found (m := iocOpenNode g n) h1
      have h3 := Graph.find_update_other (f := fun m =>
          { m with
            parents := m.parents ++ [i]
            children := ({ n with out_rel :=
              { n.out_rel with stored_with := inr.stored_with } } : Node).children })
        (fun _ => rfl) h2 (hcne c hc)
      have h4 := Graph.find_update_other (f := fun m => { m with children := [g.freshId] })
        (fun _ => rfl) h3 hci
      have hF := foldReplaceParent_find (({ n with out_rel :=
          { n.out_rel with stored_with := inr.stored_with } } : Node).children)
        _ i g.freshId _ _ h4
      rw [if_pos hc] at hF
      exact ⟨_, hF, rfl, rfl⟩
  · intro hlow
    unfold insertOpenCloseUnary
    rw [hn]
    dsimp only
    rw [hin]
    dsimp only
    rw [if_pos hdiff, if_neg (by rw [hlow]; exact Bool.false_ne_true)]



/-- The unary MPC node of the C5 witness (input stored-with `{1, 2}`, output
stored-with `{1}`). -/
def c5Node : Node :=
  { id := 2, kind := .aggregate, out_rel := ⟨"agg", [colA, colB], {1}⟩,
    parents := [1], children := [3], is_mpc := true,
    group_cols := [colA], agg_col := some colB }

/-- Concrete DAG for the lower-boundary half of the C5 witness. -/
def c5Graph : Graph :=
  ⟨[ { id := 1, kind := .create, out_rel := ⟨"inA", [colA, colB], {1, 2}⟩,
       parents := [], children := [2], is_mpc := false },
     c5Node,
     { id := 3, kind := .project, out_rel := ⟨"p", [colA, colB], {1}⟩,
       parents := [2], children := [], is_mpc := false, selected_cols := ["a", "b"] } ]⟩

/-- Same DAG with an MPC child, so node 2 is not a lower boundary. -/
def c5BadGraph : Graph :=
  ⟨[ { id := 1, kind := .create, out_rel := ⟨"inA", [colA, colB], {1, 2}⟩,
       parents := [], children := [2], is_mpc := false },
     c5Node,
     { id := 3, kind := .project, out_rel := ⟨"p", [colA, colB], {1}⟩,
       parents := [2], children := [], is_mpc := true, selected_cols := ["a", "b"] } ]⟩

/-- Witness for claim C5: at the lower boundary an MPC Open (`agg_open`) is
inserted below node 2 and node 2's stored-with is reset to `{1, 2}`; on the
non-lower-boundary variant the pass fails naming the node. -/
theorem claim_C5_witness :
    (∃ g1, insertOpenCloseUnary c5Graph 2 = Except.ok g1 ∧
      (∃ op, g1.find c5Graph.freshId = some op ∧ op.kind = Kind.openOp ∧
        op.is_mpc = true ∧ op.out_rel.name = c5Node.out_rel.name ++ "_open" ∧
        op.out_rel.stored_with = c5Node.out_rel.stored_with ∧
        op.parents = [2] ∧ op.children = c5Node.children) ∧
      (∃ n1, g1.find 2 = some n1 ∧ n1.out_rel.stored_with = {1, 2} ∧
        n1.children = [c5Graph.freshId])) ∧
    insertOpenCloseUnary c5BadGraph 2 =
      Except.error ("different stored_with on non-lower-boundary unary op: " ++
        c5Node.out_rel.name) := by
  constructor
  · obtain ⟨g1, hok, hop, ⟨n1, hf, hsw, hchl, _, _⟩, _⟩ :=
      (claim_C5 c5Graph 2 c5Node ⟨"inA", [colA, colB], {1, 2}⟩
        (by decide) (by decide) (by decide) (by decide) (by decide)
        (by
          intro c hc
          simp only [c5Node] at hc
          simp only [List.mem_singleton] at hc
          subst hc
          exact ⟨_, rfl⟩)).1 (by decide)
    exact ⟨g1, hok, hop, n1, hf, hsw, hchl⟩
  · exact (claim_C5 c5BadGraph 2 c5Node ⟨"inA", [colA, colB], {1, 2}⟩
      (by decide) (by decide) (by decide) (by decide) (by decide)
      (by
        intro c hc
        simp only [c5Node] at hc
        simp only [List.mem_singleton] at hc
        subst hc
        exact ⟨_, rfl⟩)).2 (by decide)


/-! ## Claim C4: TrustSetPropDown join rule -/

/-- Modelled from the spec (4.G): `merge_coll_sets` of `conclave/utils.py` —
set intersection, "parties trusted by all contributors". -/
def merge_coll_sets (a b : Finset Nat) : Finset Nat := a ∩ b

/-- `TrustSetPropDown._rewrite_join` of `conclave/comp.py`, expressed on the
column lists.  Returns the output columns' trust sets: the key columns first,
then the left non-key columns, then the right non-key columns — mirroring
the source's `abs_idx` layout.  `pl` / `pr` carry the non-key output
columns' trust sets from before the pass (the inner loop of the source
re-assigns the output trust set once per key pair, so the prior value
survives only when there are no key columns), and the assignment loop is the
fold that overwrites the output trust set once per key-pair set. -/
def rewriteJoinTrustSets (lcols rcols ljc rjc : List Col)
    (pl pr : List (Finset Nat)) : List (Finset Nat) :=
  let keySets := List.zipWith (fun l r => merge_coll_sets l.trust_set r.trust_set) ljc rjc
  keySets ++
    (List.zipWith (fun c p => keySets.foldl (fun _ k => merge_coll_sets k c.trust_set) p)
      (lcols.filter (fun c => !ljc.contains c)) pl) ++
    (List.zipWith (fun c p => keySets.foldl (fun _ k => merge_coll_sets k c.trust_set) p)
      (rcols.filter (fun c => !rjc.contains c)) pr)

/-- The output trust sets claim C4 asserts: non-key columns intersected with
EVERY key-column-pair trust set. -/
def joinTrustSetsClaimed (lcols rcols ljc rjc : List Col) : List (Finset Nat) :=
  let keySets := List.zipWith (fun l r => merge_coll_sets l.trust_set r.trust_set) ljc rjc
  keySets ++
    (lcols.filter (fun c => !ljc.contains c)).map
      (fun c => keySets.foldl (fun acc k => acc ∩ k) c.trust_set) ++
    (rcols.filter (fun c => !rjc.contains c)).map
      (fun c => keySets.foldl (fun acc k => acc ∩ k) c.trust_set)

/-- Left input columns of the two-key counterexample join. -/
def c4LCols : List Col := [⟨"a", 0, {1}⟩, ⟨"b", 1, {2}⟩, ⟨"e", 2, {1, 2}⟩]

/-- Right input columns of the two-key counterexample join. -/
def c4RCols : List Col := [⟨"c", 0, {1}⟩, ⟨"d", 1, {2}⟩, ⟨"f", 2, {1, 2}⟩]

/-- Left join-key columns of the counterexample. -/
def c4LJC : List Col := [⟨"a", 0, {1}⟩, ⟨"b", 1, {2}⟩]

/-- Right join-key columns of the counterexample. -/
def c4RJC : List Col := [⟨"c", 0, {1}⟩, ⟨"d", 1, {2}⟩]

/-- Claim C4, counterexample: in a join with two key pairs (trust sets `{1}`
and `{2}`) and a non-key column trusted by `{1, 2}`, the code leaves the
non-key output trust set `{2}` (intersection with only the LAST key-pair
set), while the claim demands `∅` (intersection with every key-pair set). -/
theorem claim_C4_counterexample :
    rewriteJoinTrustSets c4LCols c4RCols c4LJC c4RJC [∅] [∅] ≠
      joinTrustSetsClaimed c4LCols c4RCols c4LJC c4RJC ∧
    (rewriteJoinTrustSets c4LCols c4RCols c4LJC c4RJC [∅] [∅]).get? 2 = some {2} ∧
    (joinTrustSetsClaimed c4LCols c4RCols c4LJC c4RJC).get? 2 = some ∅ := by
  refine ⟨by decide, by decide, by decide⟩

/-- An overwrite-fold keeps only the contribution of the last element. -/
theorem foldl_overwrite (ks : List (Finset Nat)) (t p klast : Finset Nat)
    (h : ks.getLast? = some klast) :
    ks.foldl (fun _ k => merge_coll_sets k t) p = merge_coll_sets klast t := by
  induction ks generalizing p with
  | nil => simp at h
  | cons k rest ih =>
    cases rest with
    | nil =>
      simp only [List.getLast?_singleton, Option.some_inj] at h
      subst h
      rfl
    | cons k2 r2 =>
      rw [List.foldl_cons]
      exact ih _ (by rw [List.getLast?_cons_cons] at h; exact h)

/-- A `zipWith` whose function ignores its second list is a `map` when the
lengths agree. -/
theorem zipWithConst {α β γ : Type} (g : α → γ) (l : List α) (p : List β)
    (h : p.length = l.length) :
    List.zipWith (fun c _ => g c) l p = l.map g := by
  induction l generalizing p with
  | nil => simp
  | cons a t ih =>
    cases p with
    | nil => simp at h
    | cons b q =>
      simp only [List.zipWith_cons_cons, List.map_cons]
      rw [ih q (by simpa using h)]

/-- Claim C4, amended: key output columns carry the pairwise intersection of
the left and right key trust sets, and every non-key output column carries
the intersection of its input column's trust set with the trust set of the
LAST key-column pair (for a single-key join this coincides with the
intersection over every key pair). -/
theorem claim_C4_amended (lcols rcols ljc rjc : List Col)
    (pl pr : List (Finset Nat)) (klast : Finset Nat)
    (hlast : (List.zipWith (fun l r => merge_coll_sets l.trust_set r.trust_set) ljc rjc).getLast?
      = some klast)
    (hpl : pl.length = (lcols.filter (fun c => !ljc.contains c)).length)
    (hpr : pr.length = (rcols.filter (fun c => !rjc.contains c)).length) :
    rewriteJoinTrustSets lcols rcols ljc rjc pl pr =
      List.zipWith (fun l r => merge_coll_sets l.trust_set r.trust_set) ljc rjc ++
      (lcols.filter (fun c => !ljc.contains c)).map
        (fun c => merge_coll_sets klast c.trust_set) ++
      (rcols.filter (fun c => !rjc.contains c)).map
        (fun c => merge_coll_sets klast c.trust_set) := by
  unfold rewriteJoinTrustSets
  dsimp only
  have hfun : (fun (c : Col) (p : Finset Nat) =>
      (List.zipWith (fun l r => merge_coll_sets l.trust_set r.trust_set) ljc rjc).foldl
        (fun _ k => merge_coll_sets k c.trust_set) p) =
      (fun (c : Col) (_ : Finset Nat) => merge_coll_sets klast c.trust_set) := by
    funext c p
    exact foldl_overwrite _ _ _ _ hlast
  rw [hfun, zipWithConst _ _ _ hpl, zipWithConst _ _ _ hpr]



/-- Witness for the amended claim C4 at the concrete two-key join: the last
key-pair trust set is `{2}` and every non-key output column carries the
intersection of its own trust set with `{2}`. -/
theorem claim_C4_witness :
    rewriteJoinTrustSets c4LCols c4RCols c4LJC c4RJC [∅] [∅] =
      List.zipWith (fun l r => merge_coll_sets l.trust_set r.trust_set) c4LJC c4RJC ++
      (c4LCols.filter (fun c => !c4LJC.contains c)).map
        (fun c => merge_coll_sets {2} c.trust_set) ++
      (c4RCols.filter (fun c => !c4RJC.contains c)).map
        (fun c => merge_coll_sets {2} c.trust_set) :=
  claim_C4_amended c4LCols c4RCols c4LJC c4RJC [∅] [∅] {2}
    (by decide) (by decide) (by decide)


/-! ## ExpandCompositeOps: the DSL constructors and hybrid expansions -/

/-- Resolve column references by name in a column list (how the
`conclave/lang.py` constructors look selected columns up; modelled from the
spec, section 4.C: "re-resolve column references (by name) ... fails if a
referenced name no longer exists"). -/
def resolveCols (cols : List Col) (names : List String) : Option (List Col) :=
  names.mapM (fun s => cols.find? (fun c => c.name = s))

/-- Modelled from the spec: `cc.shuffle` of `conclave/lang.py` — new node
with the parent's schema and stored-with, linked below the parent. -/
def ccShuffle (g : Graph) (p : Nat) (name : String) : Except String (Graph × Nat) :=
  match g.find p with
  | none => .error "node not found"
  | some pn =>
    let nid := g.freshId
    let nd : Node := {
      id := nid, kind := .shuffle,
      out_rel := {
        name := name, cols := pn.out_rel.cols, stored_with := pn.out_rel.stored_with },
      parents := [p], children := [], is_mpc := false }
    .ok ((g.add nd).update p (fun m => { m with children := m.children ++ [nid] }), nid)

/-- Modelled from the spec: `cc._persist` of `conclave/lang.py`. -/
def ccPersist (g : Graph) (p : Nat) (name : String) : Except String (Graph × Nat) :=
  match g.find p with
  | none => .error "node not found"
  | some pn =>
    let nid := g.freshId
    let nd : Node := {
      id := nid, kind := .persist,
      out_rel := {
        name := name, cols := pn.out_rel.cols, stored_with := pn.out_rel.stored_with },
      parents := [p], children := [], is_mpc := false }
    .ok ((g.add nd).update p (fun m => { m with children := m.children ++ [nid] }), nid)

/-- Modelled from the spec: `cc.project` of `conclave/lang.py` — resolves
the selected column names in the input schema (failing when a name does not
exist) and re-indexes them densely. -/
def ccProject (g : Graph) (p : Nat) (name : String) (sel : List String) :
    Except String (Graph × Nat) :=
  match g.find p with
  | none => .error "node not found"
  | some pn =>
    match resolveCols pn.out_rel.cols sel with
    | none => .error ("column reference failed to resolve in " ++ name)
    | some cols =>
      let nid := g.freshId
      let nd : Node := {
      id := nid, kind := .project,
        out_rel := {
        name := name,
          cols := (cols.enum.map (fun ci => { ci.2 with idx := ci.1 })),
          stored_with := pn.out_rel.stored_with },
        parents := [p], children := [], is_mpc := false, selected_cols := sel }
      .ok ((g.add nd).update p (fun m => { m with children := m.children ++ [nid] }), nid)

/-- Modelled from the spec: `cc._open` of `conclave/lang.py` — an `Open`
revealing the relation to the designated target party. -/
def ccOpen (g : Graph) (p : Nat) (name : String) (target : Nat) :
    Except String (Graph × Nat) :=
  match g.find p with
  | none => .error "node not found"
  | some pn =>
    let nid := g.freshId
    let nd : Node := {
      id := nid, kind := .openOp,
      out_rel := {
        name := name, cols := pn.out_rel.cols, stored_with := {target} },
      parents := [p], children := [], is_mpc := false, trusted_party := target }
    .ok ((g.add nd).update p (fun m => { m with children := m.children ++ [nid] }), nid)

/-- Modelled from the spec: `cc._close` of `conclave/lang.py` — a `Close`
secret-sharing the relation among the given stored-with set. -/
def ccClose (g : Graph) (p : Nat) (name : String) (sw : Finset Nat) :
    Except String (Graph × Nat) :=
  match g.find p with
  | none => .error "node not found"
  | some pn =>
    let nid := g.freshId
    let nd : Node := {
      id := nid, kind := .close,
      out_rel := {
        name := name, cols := pn.out_rel.cols, stored_with := sw },
      parents := [p], children := [], is_mpc := false }
    .ok ((g.add nd).update p (fun m => { m with children := m.children ++ [nid] }), nid)

/-- Modelled from the spec: `cc._join_flags` of `conclave/lang.py` — a local
`JoinFlags` operator computing the match-indicator vector of the two key
projections; the key names are resolved in the two input schemas. -/
def ccJoinFlags (g : Graph) (lp rp : Nat) (name : String) (ljc rjc : List String) :
    Except String (Graph × Nat) :=
  match g.find lp, g.find rp with
  | some ln, some rn =>
    match resolveCols ln.out_rel.cols ljc, resolveCols rn.out_rel.cols rjc with
    | some _, some _ =>
      let nid := g.freshId
      let nd : Node := {
      id := nid, kind := .joinFlags,
        out_rel := {
        name := name, cols := [⟨"flags", 0, ∅⟩],
          stored_with := ln.out_rel.stored_with },
        parents := [lp, rp], children := [], is_mpc := false,
        left_join_cols := ljc, right_join_cols := rjc }
      .ok (((g.add nd).update lp (fun m => { m with children := m.children ++ [nid] })).update
        rp (fun m => { m with children := m.children ++ [nid] }), nid)
    | _, _ => .error ("column reference failed to resolve in " ++ name)
  | _, _ => .error "node not found"

/-- Modelled from the spec: `cc._flag_join` of `conclave/lang.py` — the
final `FlagJoin`, an MPC join directed by the closed flags relation (the
spec fixes it MPC: "a final MPC FlagJoin"). -/
def ccFlagJoin (g : Graph) (lp rp : Nat) (name : String) (ljc rjc : List String)
    (flagsId : Nat) : Except String (Graph × Nat) :=
  match g.find lp, g.find rp with
  | some ln, some rn =>
    match resolveCols ln.out_rel.cols ljc, resolveCols rn.out_rel.cols rjc with
    | some _, some _ =>
      let nid := g.freshId
      let nd : Node := {
      id := nid, kind := .flagJoin,
        out_rel := {
        name := name, cols := ln.out_rel.cols,
          stored_with := ln.out_rel.stored_with ∪ rn.out_rel.stored_with },
        parents := [lp, rp, flagsId], children := [], is_mpc := true,
        left_join_cols := ljc, right_join_cols := rjc }
      .ok ((((g.add nd).update lp (fun m =>
          { m with children := m.children ++ [nid] })).update rp (fun m =>
          { m with children := m.children ++ [nid] })).update flagsId (fun m =>
          { m with children := m.children ++ [nid] }), nid)
    | _, _ => .error ("column reference failed to resolve in " ++ name)
  | _, _ => .error "node not found"

/-- Modelled from the spec: `cc.index` of `conclave/lang.py` — prepends a
row-index column to the schema. -/
def ccIndex (g : Graph) (p : Nat) (name : String) (idxCol : String) :
    Except String (Graph × Nat) :=
  match g.find p with
  | none => .error "node not found"
  | some pn =>
    let nid := g.freshId
    let nd : Node := {
      id := nid, kind := .index,
      out_rel := {
        name := name,
        cols := ⟨idxCol, 0, ∅⟩ :: pn.out_rel.cols.map (fun c => { c with idx := c.idx + 1 }),
        stored_with := pn.out_rel.stored_with },
      parents := [p], children := [], is_mpc := false }
    .ok ((g.add nd).update p (fun m => { m with children := m.children ++ [nid] }), nid)

/-- Modelled from the spec: `cc.sort_by` of `conclave/lang.py` — same schema,
sorted by the given (resolved) column. -/
def ccSortBy (g : Graph) (p : Nat) (name : String) (key : String) :
    Except String (Graph × Nat) :=
  match g.find p with
  | none => .error "node not found"
  | some pn =>
    match resolveCols pn.out_rel.cols [key] with
    | none => .error ("column reference failed to resolve in " ++ name)
    | some _ =>
      let nid := g.freshId
      let nd : Node := {
      id := nid, kind := .sortBy,
        out_rel := {
        name := name, cols := pn.out_rel.cols,
          stored_with := pn.out_rel.stored_with },
        parents := [p], children := [], is_mpc := false }
      .ok ((g.add nd).update p (fun m => { m with children := m.children ++ [nid] }), nid)

/-- Modelled from the spec: `cc._comp_neighs` of `conclave/lang.py` —
compares neighbouring rows on the given column, producing a flags vector. -/
def ccCompNeighs (g : Graph) (p : Nat) (name : String) (key : String) :
    Except String (Graph × Nat) :=
  match g.find p with
  | none => .error "node not found"
  | some pn =>
    match resolveCols pn.out_rel.cols [key] with
    | none => .error ("column reference failed to resolve in " ++ name)
    | some _ =>
      let nid := g.freshId
      let nd : Node := {
      id := nid, kind := .compNeighs,
        out_rel := {
        name := name, cols := [⟨"flags", 0, ∅⟩],
          stored_with := pn.out_rel.stored_with },
        parents := [p], children := [], is_mpc := false }
      .ok ((g.add nd).update p (fun m => { m with children := m.children ++ [nid] }), nid)

/-- Modelled from the spec: `cc.index_aggregate` of `conclave/lang.py` — an
`IndexAggregate` over the persisted input, directed by the closed flags and
closed sorted-keys relations. -/
def ccIndexAggregate (g : Graph) (p : Nat) (name : String) (groupNames : List String)
    (aggName : String) (outName : String) (eqFlagsId sortedId : Nat) :
    Except String (Graph × Nat) :=
  match g.find p with
  | none => .error "node not found"
  | some pn =>
    match resolveCols pn.out_rel.cols groupNames, resolveCols pn.out_rel.cols [aggName] with
    | some gcols, some _ =>
      let nid := g.freshId
      let nd : Node := {
      id := nid, kind := .indexAggregate,
        out_rel := {
        name := name,
          cols := (gcols.enum.map (fun ci => { ci.2 with idx := ci.1 })) ++
            [⟨outName, gcols.length, ∅⟩],
          stored_with := pn.out_rel.stored_with },
        parents := [p, eqFlagsId, sortedId], children := [], is_mpc := false,
        group_cols := gcols, agg_col := some ⟨aggName, 0, ∅⟩ }
      .ok ((((g.add nd).update p (fun m =>
          { m with children := m.children ++ [nid] })).update eqFlagsId (fun m =>
          { m with children := m.children ++ [nid] })).update sortedId (fun m =>
          { m with children := m.children ++ [nid] }), nid)
    | _, _ => .error ("column reference failed to resolve in " ++ name)



/-- `ExpandCompositeOps._rewrite_hybrid_join_non_leaky` of
`conclave/comp.py` (its own docstring: "This uses the size-leaking
version").  `ctr` is the incremented join counter forming the unique suffix
`_hybrid_join_<ctr>`.  The key column names `"a"` / `"c"` and the
`flags_closed` stored-with set `{1, 2, 3}` are hard-coded in the source
("TODO column names should not be hard-coded"). -/
def expandHybridJoinNonLeaky (g : Graph) (i : Nat) (ctr : Nat) : Except String Graph := do
  let some node := g.find i | throw "node not found"
  let suffix := "_hybrid_join_" ++ toString ctr
  let some lp := node.parents.get? 0 | throw "missing left parent"
  let some rp := node.parents.get? 1 | throw "missing right parent"
  let (g, left_shuffled) ← ccShuffle g lp ("left_shuffled" ++ suffix)
  let g := g.update left_shuffled (fun m => { m with is_mpc := true })
  let g := g.update lp (fun m => { m with children := m.children.filter (fun x => x ≠ i) })
  let (g, right_shuffled) ← ccShuffle g rp ("right_shuffled" ++ suffix)
  let g := g.update right_shuffled (fun m => { m with is_mpc := true })
  let g := g.update rp (fun m => { m with children := m.children.filter (fun x => x ≠ i) })
  let (g, left_persisted) ← ccPersist g left_shuffled ("left_persisted" ++ suffix)
  let g := g.update left_persisted (fun m => { m with is_mpc := true })
  let (g, right_persisted) ← ccPersist g right_shuffled ("right_persisted" ++ suffix)
  let g := g.update right_persisted (fun m => { m with is_mpc := true })
  let (g, left_keys_closed) ← ccProject g left_shuffled ("left_keys_closed" ++ suffix) ["a"]
  let g := g.update left_keys_closed (fun m => { m with is_mpc := true })
  let (g, right_keys_closed) ← ccProject g right_shuffled ("right_keys_closed" ++ suffix) ["c"]
  let g := g.update right_keys_closed (fun m => { m with is_mpc := true })
  let (g, left_keys_open) ← ccOpen g left_keys_closed ("left_keys_open" ++ suffix)
    node.trusted_party
  let g := g.update left_keys_open (fun m => { m with is_mpc := true })
  let (g, right_keys_open) ← ccOpen g right_keys_closed ("right_keys_open" ++ suffix)
    node.trusted_party
  let g := g.update right_keys_open (fun m => { m with is_mpc := true })
  let (g, left_dummy) ← ccProject g left_keys_open ("left_dummy" ++ suffix) ["a"]
  let g := g.update left_dummy (fun m => { m with is_mpc := false })
  let (g, right_dummy) ← ccProject g right_keys_open ("right_dummy" ++ suffix) ["c"]
  let g := g.update right_dummy (fun m => { m with is_mpc := false })
  let (g, flags) ← ccJoinFlags g left_dummy right_dummy ("flags" ++ suffix) ["a"] ["c"]
  let g := g.update flags (fun m => { m with is_mpc := false })
  let (g, flags_closed) ← ccClose g flags ("flags_closed" ++ suffix) {1, 2, 3}
  let g := g.update flags_closed (fun m => { m with is_mpc := true })
  let (g, joined) ← ccFlagJoin g left_persisted right_persisted node.out_rel.name
    ["a"] ["c"] flags_closed
  let g := (g.sortedChildren node).foldl (fun a c => a.replaceParent c i joined) g
  let g := g.update joined (fun m => { m with children := node.children })
  return g

/-- `ExpandCompositeOps._rewrite_agg_non_leaky` of `conclave/comp.py` (its
own docstring: "This uses the size-leaking version"); the aggregator symbol
itself is not modelled (it is carried opaquely by the source). -/
def expandAggNonLeaky (g : Graph) (i : Nat) (ctr : Nat) : Except String Graph := do
  let some node := g.find i | throw "node not found"
  let suffix := "_hybrid_agg_" ++ toString ctr
  let some gcol0 := node.group_cols.get? 0 | throw "index out of range"
  let groupByColName := gcol0.name
  let some p := node.parents.head? | throw "StopIteration"
  let some inr := g.inRel node | throw "node not found"
  let (g, shuffled) ← ccShuffle g p ("shuffled" ++ suffix)
  let g := g.update shuffled (fun m => { m with is_mpc := true })
  let g := g.update p (fun m => { m with children := m.children.filter (fun x => x ≠ i) })
  let (g, persisted) ← ccPersist g shuffled ("persisted" ++ suffix)
  let g := g.update persisted (fun m => { m with is_mpc := true })
  let (g, keys_closed) ← ccProject g shuffled ("keys_closed" ++ suffix) [groupByColName]
  let g := g.update keys_closed (fun m => { m with is_mpc := true })
  let (g, keys) ← ccOpen g keys_closed ("keys" ++ suffix) node.trusted_party
  let g := g.update keys (fun m => { m with is_mpc := true })
  let (g, indexed) ← ccIndex g keys ("indexed" ++ suffix) "row_index"
  let g := g.update indexed (fun m => { m with is_mpc := false })
  let (g, sorted_by_key) ← ccSortBy g indexed ("sorted_by_key" ++ suffix) groupByColName
  let g := g.update sorted_by_key (fun m => { m with is_mpc := false })
  let (g, eq_flags) ← ccCompNeighs g sorted_by_key ("eq_flags" ++ suffix) groupByColName
  let g := g.update eq_flags (fun m => { m with is_mpc := false })
  let (g, sorted_by_key_dummy) ← ccProject g sorted_by_key ("sorted_by_key_dummy" ++ suffix)
    ["row_index", groupByColName]
  let g := g.update sorted_by_key_dummy (fun m => { m with is_mpc := false })
  let (g, closed_eq_flags) ← ccClose g eq_flags ("closed_eq_flags" ++ suffix) inr.stored_with
  let g := g.update closed_eq_flags (fun m => { m with is_mpc := true })
  let (g, closed_sorted_by_key) ← ccClose g sorted_by_key_dummy
    ("closed_sorted_by_key" ++ suffix) inr.stored_with
  let g := g.update closed_sorted_by_key (fun m => { m with is_mpc := true })
  let groupColNames := node.group_cols.map (fun c => c.name)
  let some outOverCol := node.out_rel.cols.getLast? | throw "index out of range"
  let some aggCol := node.agg_col | throw "agg col missing"
  let (g, result) ← ccIndexAggregate g persisted node.out_rel.name groupColNames
    aggCol.name outOverCol.name closed_eq_flags closed_sorted_by_key
  let g := g.update result (fun m => { m with is_mpc := true })
  let g := (g.sortedChildren node).foldl (fun a c => a.replaceParent c i result) g
  let g := g.update result (fun m => { m with children := node.children })
  return g

/-- `ExpandCompositeOps._rewrite_hybrid_join` of `conclave/comp.py`: the
`use_leaky_ops` dispatch as written in the source — `True` raises
"not implemented", `False` runs `_rewrite_hybrid_join_non_leaky`. -/
def rewriteHybridJoin (useLeakyOps : Bool) (g : Graph) (i : Nat) (ctr : Nat) :
    Except String Graph :=
  if useLeakyOps then .error "not implemented"
  else expandHybridJoinNonLeaky g i ctr

/-- `ExpandCompositeOps._rewrite_hybrid_aggregate` of `conclave/comp.py`:
`True` raises "not implemented", `False` runs `_rewrite_agg_non_leaky`. -/
def rewriteHybridAggregate (useLeakyOps : Bool) (g : Graph) (i : Nat) (ctr : Nat) :
    Except String Graph :=
  if useLeakyOps then .error "not implemented"
  else expandAggNonLeaky g i ctr


/-! ## Claims C1, C2, C9: the hybrid-join expansion -/

/-- Claim C1: how the `use_leaky_ops` dispatch actually behaves in the
source — with `use_leaky_ops = true` both hybrid rewrites raise
"not implemented", and with `use_leaky_ops = false` they run the expansion
functions whose own docstrings say "This uses the size-leaking version".
This is the opposite of the claim: the flag's name and the spec both make
`true` select the (only implemented, size-leaking) variant. -/
theorem claim_C1 (g : Graph) (i ctr : Nat) :
    rewriteHybridJoin true g i ctr = Except.error "not implemented" ∧
    rewriteHybridAggregate true g i ctr = Except.error "not implemented" ∧
    rewriteHybridJoin false g i ctr = expandHybridJoinNonLeaky g i ctr ∧
    rewriteHybridAggregate false g i ctr = expandAggNonLeaky g i ctr :=
  ⟨rfl, rfl, rfl, rfl⟩

/-- A HybridJoin DAG in the shape of scenario S5: two Create inputs with
schemas `[a, b]` / `[c, d]`, the HybridJoin and its two children. -/
def hjGraph (t1 t2 t3 t4 lsw rsw : Finset Nat)
    (ljc rjc : List String) (tp : Nat) (osw : Finset Nat) : Graph :=
  ⟨[ { id := 1, kind := .create, out_rel := ⟨"left", [⟨"a", 0, t1⟩, ⟨"b", 1, t2⟩], lsw⟩,
       parents := [], children := [3], is_mpc := false },
     { id := 2, kind := .create, out_rel := ⟨"right", [⟨"c", 0, t3⟩, ⟨"d", 1, t4⟩], rsw⟩,
       parents := [], children := [3], is_mpc := false },
     { id := 3, kind := .hybridJoin, out_rel := ⟨"joined", [⟨"a", 0, ∅⟩], osw⟩,
       parents := [1, 2], children := [4, 5], is_mpc := true,
       left_join_cols := ljc, right_join_cols := rjc, trusted_party := tp },
     { id := 4, kind := .openOp, out_rel := ⟨"opened", [⟨"a", 0, ∅⟩], {1}⟩,
       parents := [3], children := [], is_mpc := true },
     { id := 5, kind := .persist, out_rel := ⟨"kept", [⟨"a", 0, ∅⟩], {1, 2, 3}⟩,
       parents := [3], children := [], is_mpc := true } ]⟩

/-- The scenario-S5 instance: a HybridJoin with `trusted_party = 1` joining
on the key columns `a` / `c`. -/
def c2Graph : Graph := hjGraph ∅ ∅ ∅ ∅ {1} {2} ["a"] ["c"] 1 {1, 2}

/-- Claim C2, counterexample: the expansion of the scenario-S5 HybridJoin
creates 13 new nodes (5 + 13 = 18 total), not the claimed 11 (11 is the
node count of the Hybrid*Aggregate* expansion of section 4.J). -/
theorem claim_C2_counterexample :
    (match expandHybridJoinNonLeaky c2Graph 3 1 with
     | .ok g => g.nodes.length
     | .error _ => 0) = c2Graph.nodes.length + 13 ∧
    c2Graph.nodes.length + 13 ≠ c2Graph.nodes.length + 11 :=
  ⟨by decide, by decide⟩

/-- The outcome the amended claim C2 expects of the expansion: 13 new
nodes, no remaining edge to the original HybridJoin (id 3), and a final MPC
`FlagJoin` owning the original node's output name and exactly its former
children. -/
def c2ExpectedOutcome (r : Except String Graph) : Bool :=
  match r with
  | .error _ => false
  | .ok g =>
    (g.nodes.length == c2Graph.nodes.length + 13) &&
    (g.nodes.all (fun m => m.id == 3 ||
      (!(m.parents.contains 3) && !(m.children.contains 3)))) &&
    (match g.find 18, g.find 4, g.find 5 with
     | some fj, some c4n, some c5n =>
       fj.kind == Kind.flagJoin && fj.is_mpc && fj.out_rel.name == "joined" &&
       fj.children == [4, 5] && c4n.parents == [18] && c5n.parents == [18]
     | _, _, _ => false)

/-- Claim C2, amended: the scenario-S5 HybridJoin (trusted_party = 1) is
replaced by a 13-node subgraph of primitive operators; the original node is
absent (no node keeps an edge to it); the subgraph's final `FlagJoin` is MPC
and has exactly the original join's children. -/
theorem claim_C2_amended :
    c2ExpectedOutcome (expandHybridJoinNonLeaky c2Graph 3 1) = true := by decide

/-- A HybridJoin whose key columns are named `k` / `m` — not `a` / `c` —
while its inputs happen to also hold non-key columns named `a` and `c`;
its stored-with sets and trusted party differ from the S5 instance too. -/
def c9KeysKM : Graph :=
  ⟨[ { id := 1, kind := .create, out_rel := ⟨"left", [⟨"k", 0, ∅⟩, ⟨"a", 1, ∅⟩], {2, 3}⟩,
       parents := [], children := [3], is_mpc := false },
     { id := 2, kind := .create, out_rel := ⟨"right", [⟨"m", 0, ∅⟩, ⟨"c", 1, ∅⟩], {1, 3}⟩,
       parents := [], children := [3], is_mpc := false },
     { id := 3, kind := .hybridJoin, out_rel := ⟨"joined", [⟨"k", 0, ∅⟩], {1, 2, 3}⟩,
       parents := [1, 2], children := [4, 5], is_mpc := true,
       left_join_cols := ["k"], right_join_cols := ["m"], trusted_party := 2 },
     { id := 4, kind := .openOp, out_rel := ⟨"opened", [⟨"k", 0, ∅⟩], {2}⟩,
       parents := [3], children := [], is_mpc := true },
     { id := 5, kind := .persist, out_rel := ⟨"kept", [⟨"k", 0, ∅⟩], {1, 2, 3}⟩,
       parents := [3], children := [], is_mpc := true } ]⟩

/-- A HybridJoin whose left input has no column named `a` at all. -/
def c9NoA : Graph :=
  ⟨[ { id := 1, kind := .create, out_rel := ⟨"left", [⟨"k", 0, ∅⟩, ⟨"b", 1, ∅⟩], {1}⟩,
       parents := [], children := [3], is_mpc := false },
     { id := 2, kind := .create, out_rel := ⟨"right", [⟨"m", 0, ∅⟩, ⟨"c", 1, ∅⟩], {2}⟩,
       parents := [], children := [3], is_mpc := false },
     { id := 3, kind := .hybridJoin, out_rel := ⟨"joined", [⟨"k", 0, ∅⟩], {1, 2}⟩,
       parents := [1, 2], children := [4, 5], is_mpc := true,
       left_join_cols := ["k"], right_join_cols := ["m"], trusted_party := 1 },
     { id := 4, kind := .openOp, out_rel := ⟨"opened", [⟨"k", 0, ∅⟩], {1}⟩,
       parents := [3], children := [], is_mpc := true },
     { id := 5, kind := .persist, out_rel := ⟨"kept", [⟨"k", 0, ∅⟩], {1, 2, 3}⟩,
       parents := [3], children := [], is_mpc := true } ]⟩

/-- Claim C9, counterexample: for this HybridJoin, whose key columns are
named `k` and `m` (not `a` and `c`), the expansion nevertheless succeeds —
every hard-coded column reference resolves, against a NON-KEY column — so
the claim's "references columns that do not exist in its inputs" is false
for this node. -/
theorem claim_C9_counterexample :
    (match expandHybridJoinNonLeaky c9KeysKM 3 1 with
     | .ok _ => true
     | .error _ => false) = true ∧
    (c9KeysKM.find 3).map (fun n => n.left_join_cols) = some ["k"] ∧
    (c9KeysKM.find 3).map (fun n => n.right_join_cols) = some ["m"] :=
  ⟨by decide, by decide, by decide⟩




/-! ## Claim C9: the general hard-coding theorem -/

/-- The accumulator of a `max`-fold is a lower bound of the result. -/
theorem le_foldl_max (l : List Nat) (a : Nat) : a ≤ l.foldl max a := by
  induction l generalizing a with
  | nil => exact le_refl a
  | cons b t ih => exact le_trans (le_max_left a b) (ih (max a b))

/-- Every member of a list is bounded by its `max`-fold. -/
theorem foldl_max_le {l : List Nat} {x : Nat} (a : Nat) (hx : x ∈ l) :
    x ≤ l.foldl max a := by
  induction l generalizing a with
  | nil => cases hx
  | cons b t ih =>
    rcases List.mem_cons.mp hx with rfl | h
    · exact le_trans (le_max_right a x) (le_foldl_max t (max a x))
    · exact ih (max a b) h

/-- `freshId` is never the id of an existing node. -/
theorem Graph.find_freshId (g : Graph) : g.find g.freshId = none := by
  unfold Graph.find Graph.freshId
  apply List.find?_eq_none.mpr
  intro n hn
  simp only [decide_eq_true_eq]
  intro heq
  have hmem : n.id ∈ g.nodes.map (fun n => n.id) := List.mem_map_of_mem _ hn
  have hle := foldl_max_le 0 hmem
  omega


/-- A graph evolution that keeps every existing node's output relation and
selected columns (edges and the MPC flag may change). -/
def PreservesMeta (g g1 : Graph) : Prop :=
  ∀ k nk, g.find k = some nk → ∃ m, g1.find k = some m ∧
    m.out_rel = nk.out_rel ∧ m.selected_cols = nk.selected_cols

/-- `PreservesMeta` is reflexive. -/
theorem preservesMeta_refl (g : Graph) : PreservesMeta g g :=
  fun _ nk h => ⟨nk, h, rfl, rfl⟩

/-- `PreservesMeta` composes. -/
theorem preservesMeta_trans {g g1 g2 : Graph}
    (h1 : PreservesMeta g g1) (h2 : PreservesMeta g1 g2) : PreservesMeta g g2 := by
  intro k nk h
  obtain ⟨m, hm, ho, hs⟩ := h1 k nk h
  obtain ⟨m2, hm2, ho2, hs2⟩ := h2 k m hm
  exact ⟨m2, hm2, ho2.trans ho, hs2.trans hs⟩

/-- An update that keeps id, output relation and selected columns preserves
the metadata of every node. -/
theorem preservesMeta_update {g : Graph} {j : Nat} {f : Node → Node}
    (hf : ∀ m, (f m).id = m.id)
    (ho : ∀ m, (f m).out_rel = m.out_rel)
    (hs : ∀ m, (f m).selected_cols = m.selected_cols) :
    PreservesMeta g (g.update j f) := by
  intro k nk h
  rw [Graph.find_update_some hf h]
  by_cases hid : nk.id = j
  · exact ⟨_, by rw [if_pos hid], ho nk, hs nk⟩
  · exact ⟨_, by rw [if_neg hid], rfl, rfl⟩

/-- Appending a node preserves the metadata of every existing node. -/
theorem preservesMeta_add {g : Graph} {m : Node} : PreservesMeta g (g.add m) :=
  fun _ nk h => ⟨nk, Graph.find_add_of_found h, rfl, rfl⟩

/-- A `replace_parent` fold preserves the metadata of every node. -/
theorem preservesMeta_foldReplace {g : Graph} (cs : List Nat) (i j : Nat) :
    PreservesMeta g (cs.foldl (fun a c => a.replaceParent c i j) g) := by
  induction cs generalizing g with
  | nil => exact preservesMeta_refl g
  | cons c0 rest ih =>
    rw [List.foldl_cons]
    refine preservesMeta_trans ?_ (ih (g := g.replaceParent c0 i j))
    unfold Graph.replaceParent
    exact preservesMeta_update (fun _ => rfl) (fun _ => rfl) (fun _ => rfl)

/-- Two nodes found at different outcomes have different ids. -/
theorem find_ne_of_some_none {g : Graph} {a b : Nat} {n : Node}
    (ha : g.find a = some n) (hb : g.find b = none) : a ≠ b := by
  intro heq
  rw [heq, hb] at ha
  exact Option.noConfusion ha

/-- Resolving a single column name is a `find?`. -/
theorem resolveCols_single (cols : List Col) (s : String) :
    resolveCols cols [s] = (cols.find? (fun c => c.name = s)).map (fun c => [c]) := by
  unfold resolveCols
  cases h : cols.find? (fun c => c.name = s) <;>
    simp [List.mapM, List.mapM.loop, h]



/-- Resolving a single name in a one-column schema succeeds on a name match. -/
theorem resolveCols_singleton {c : Col} {s : String} (h : c.name = s) :
    resolveCols [c] [s] = some [c] := by
  rw [resolveCols_single]
  simp [List.find?, h]

/-- `Except.ok` feeds its value to the bind continuation. -/
theorem bind_ok {e a b : Type} (x : a) (f : a → Except e b) :
    (Except.ok x >>= f) = f x := rfl

/-- `Except.error` short-circuits a bind. -/
theorem bind_err {e a b : Type} (x : e) (f : a → Except e b) :
    (Except.error x >>= f) = Except.error x := rfl

/-- Push a node's output-relation fields and selected columns through a
metadata-preserving graph evolution. -/
theorem preservesMeta_fields {g h : Graph} {k : Nat} {n : Node}
    {b : String} {c : List Col} {w : Finset Nat} {s : List String}
    (hp : PreservesMeta g h) (hm : g.find k = some n)
    (h1 : n.out_rel.name = b) (h2 : n.out_rel.cols = c)
    (h3 : n.out_rel.stored_with = w) (h4 : n.selected_cols = s) :
    ∃ m, h.find k = some m ∧ m.out_rel.name = b ∧ m.out_rel.cols = c ∧
      m.out_rel.stored_with = w ∧ m.selected_cols = s := by
  obtain ⟨m, hm2, ho, hs⟩ := hp k n hm
  exact ⟨m, hm2, by rw [ho, h1], by rw [ho, h2], by rw [ho, h3], by rw [hs, h4]⟩

/-- Specification of `ccShuffle` on a found parent: the ok result at the
fresh id, the new node, and metadata preservation. -/
theorem ccShuffle_spec {g : Graph} {p : Nat} {pn : Node} (s : String)
    (hp : g.find p = some pn) :
    ∃ h, ccShuffle g p s = Except.ok (h, g.freshId) ∧
      h.find g.freshId = some {
        id := g.freshId, kind := .shuffle,
        out_rel := ⟨s, pn.out_rel.cols, pn.out_rel.stored_with⟩,
        parents := [p], children := [], is_mpc := false } ∧
      PreservesMeta g h := by
  have hq : p ≠ g.freshId := find_ne_of_some_none hp (Graph.find_freshId g)
  unfold ccShuffle
  simp only [hp]
  refine ⟨_, rfl, ?_, ?_⟩
  · exact Graph.find_update_other
      (f := fun m => { m with children := m.children ++ [g.freshId] }) (fun _ => rfl)
      (Graph.find_add_new (Graph.find_freshId g) rfl) (Ne.symm hq)
  · exact preservesMeta_trans preservesMeta_add
      (preservesMeta_update (f := fun m => { m with children := m.children ++ [g.freshId] })
        (fun _ => rfl) (fun _ => rfl) (fun _ => rfl))

/-- Specification of `ccPersist` on a found parent. -/
theorem ccPersist_spec {g : Graph} {p : Nat} {pn : Node} (s : String)
    (hp : g.find p = some pn) :
    ∃ h, ccPersist g p s = Except.ok (h, g.freshId) ∧
      h.find g.freshId = some {
        id := g.freshId, kind := .persist,
        out_rel := ⟨s, pn.out_rel.cols, pn.out_rel.stored_with⟩,
        parents := [p], children := [], is_mpc := false } ∧
      PreservesMeta g h := by
  have hq : p ≠ g.freshId := find_ne_of_some_none hp (Graph.find_freshId g)
  unfold ccPersist
  simp only [hp]
  refine ⟨_, rfl, ?_, ?_⟩
  · exact Graph.find_update_other
      (f := fun m => { m with children := m.children ++ [g.freshId] }) (fun _ => rfl)
      (Graph.find_add_new (Graph.find_freshId g) rfl) (Ne.symm hq)
  · exact preservesMeta_trans preservesMeta_add
      (preservesMeta_update (f := fun m => { m with children := m.children ++ [g.freshId] })
        (fun _ => rfl) (fun _ => rfl) (fun _ => rfl))

/-- Specification of `ccProject` when the selected names resolve. -/
theorem ccProject_spec {g : Graph} {p : Nat} {pn : Node} {sel : List String}
    {c : List Col} (s : String) (hp : g.find p = some pn)
    (hr : resolveCols pn.out_rel.cols sel = some c) :
    ∃ h, ccProject g p s sel = Except.ok (h, g.freshId) ∧
      h.find g.freshId = some {
        id := g.freshId, kind := .project,
        out_rel := ⟨s, c.enum.map (fun ci => { ci.2 with idx := ci.1 }), pn.out_rel.stored_with⟩,
        parents := [p], children := [], is_mpc := false, selected_cols := sel } ∧
      PreservesMeta g h := by
  have hq : p ≠ g.freshId := find_ne_of_some_none hp (Graph.find_freshId g)
  unfold ccProject
  simp only [hp, hr]
  refine ⟨_, rfl, ?_, ?_⟩
  · exact Graph.find_update_other
      (f := fun m => { m with children := m.children ++ [g.freshId] }) (fun _ => rfl)
      (Graph.find_add_new (Graph.find_freshId g) rfl) (Ne.symm hq)
  · exact preservesMeta_trans preservesMeta_add
      (preservesMeta_update (f := fun m => { m with children := m.children ++ [g.freshId] })
        (fun _ => rfl) (fun _ => rfl) (fun _ => rfl))

/-- `ccProject` fails when a selected name does not resolve. -/
theorem ccProject_fails {g : Graph} {p : Nat} {pn : Node} {sel : List String}
    (s : String) (hp : g.find p = some pn)
    (hr : resolveCols pn.out_rel.cols sel = none) :
    ccProject g p s sel =
      Except.error ("column reference failed to resolve in " ++ s) := by
  unfold ccProject
  rw [hp]
  dsimp only
  rw [hr]

/-- Specification of `ccOpen` on a found parent. -/
theorem ccOpen_spec {g : Graph} {p : Nat} {pn : Node} (s : String) (t : Nat)
    (hp : g.find p = some pn) :
    ∃ h, ccOpen g p s t = Except.ok (h, g.freshId) ∧
      h.find g.freshId = some {
        id := g.freshId, kind := .openOp,
        out_rel := ⟨s, pn.out_rel.cols, {t}⟩,
        parents := [p], children := [], is_mpc := false, trusted_party := t } ∧
      PreservesMeta g h := by
  have hq : p ≠ g.freshId := find_ne_of_some_none hp (Graph.find_freshId g)
  unfold ccOpen
  simp only [hp]
  refine ⟨_, rfl, ?_, ?_⟩
  · exact Graph.find_update_other
      (f := fun m => { m with children := m.children ++ [g.freshId] }) (fun _ => rfl)
      (Graph.find_add_new (Graph.find_freshId g) rfl) (Ne.symm hq)
  · exact preservesMeta_trans preservesMeta_add
      (preservesMeta_update (f := fun m => { m with children := m.children ++ [g.freshId] })
        (fun _ => rfl) (fun _ => rfl) (fun _ => rfl))

/-- Specification of `ccClose` on a found parent. -/
theorem ccClose_spec {g : Graph} {p : Nat} {pn : Node} (s : String) (w : Finset Nat)
    (hp : g.find p = some pn) :
    ∃ h, ccClose g p s w = Except.ok (h, g.freshId) ∧
      h.find g.freshId = some {
        id := g.freshId, kind := .close,
        out_rel := ⟨s, pn.out_rel.cols, w⟩,
        parents := [p], children := [], is_mpc := false } ∧
      PreservesMeta g h := by
  have hq : p ≠ g.freshId := find_ne_of_some_none hp (Graph.find_freshId g)
  unfold ccClose
  simp only [hp]
  refine ⟨_, rfl, ?_, ?_⟩
  · exact Graph.find_update_other
      (f := fun m => { m with children := m.children ++ [g.freshId] }) (fun _ => rfl)
      (Graph.find_add_new (Graph.find_freshId g) rfl) (Ne.symm hq)
  · exact preservesMeta_trans preservesMeta_add
      (preservesMeta_update (f := fun m => { m with children := m.children ++ [g.freshId] })
        (fun _ => rfl) (fun _ => rfl) (fun _ => rfl))

/-- Specification of `ccJoinFlags` when both key-name lists resolve. -/
theorem ccJoinFlags_spec {g : Graph} {lp rp : Nat} {ln rn : Node}
    {ljc rjc : List String} {lc rc : List Col} (s : String)
    (hl : g.find lp = some ln) (hr : g.find rp = some rn)
    (h1 : resolveCols ln.out_rel.cols ljc = some lc)
    (h2 : resolveCols rn.out_rel.cols rjc = some rc) :
    ∃ h, ccJoinFlags g lp rp s ljc rjc = Except.ok (h, g.freshId) ∧
      h.find g.freshId = some {
        id := g.freshId, kind := .joinFlags,
        out_rel := ⟨s, [⟨"flags", 0, ∅⟩], ln.out_rel.stored_with⟩,
        parents := [lp, rp], children := [], is_mpc := false,
        left_join_cols := ljc, right_join_cols := rjc } ∧
      PreservesMeta g h := by
  have hql : lp ≠ g.freshId := find_ne_of_some_none hl (Graph.find_freshId g)
  have hqr : rp ≠ g.freshId := find_ne_of_some_none hr (Graph.find_freshId g)
  unfold ccJoinFlags
  simp only [hl, hr, h1, h2]
  refine ⟨_, rfl, ?_, ?_⟩
  · exact Graph.find_update_other
      (f := fun m => { m with children := m.children ++ [g.freshId] }) (fun _ => rfl)
      (Graph.find_update_other
        (f := fun m => { m with children := m.children ++ [g.freshId] }) (fun _ => rfl)
        (Graph.find_add_new (Graph.find_freshId g) rfl) (Ne.symm hql))
      (Ne.symm hqr)
  · exact preservesMeta_trans preservesMeta_add
      (preservesMeta_trans
        (preservesMeta_update (f := fun m => { m with children := m.children ++ [g.freshId] })
          (fun _ => rfl) (fun _ => rfl) (fun _ => rfl))
        (preservesMeta_update (f := fun m => { m with children := m.children ++ [g.freshId] })
          (fun _ => rfl) (fun _ => rfl) (fun _ => rfl)))

/-- Specification of `ccFlagJoin` when both key-name lists resolve. -/
theorem ccFlagJoin_spec {g : Graph} {lp rp q : Nat} {ln rn qn : Node}
    {ljc rjc : List String} {lc rc : List Col} (s : String)
    (hl : g.find lp = some ln) (hr : g.find rp = some rn)
    (hq : g.find q = some qn)
    (h1 : resolveCols ln.out_rel.cols ljc = some lc)
    (h2 : resolveCols rn.out_rel.cols rjc = some rc) :
    ∃ h, ccFlagJoin g lp rp s ljc rjc q = Except.ok (h, g.freshId) ∧
      h.find g.freshId = some {
        id := g.freshId, kind := .flagJoin,
        out_rel := ⟨s, ln.out_rel.cols, ln.out_rel.stored_with ∪ rn.out_rel.stored_with⟩,
        parents := [lp, rp, q], children := [], is_mpc := true,
        left_join_cols := ljc, right_join_cols := rjc } ∧
      PreservesMeta g h := by
  have hql : lp ≠ g.freshId := find_ne_of_some_none hl (Graph.find_freshId g)
  have hqr : rp ≠ g.freshId := find_ne_of_some_none hr (Graph.find_freshId g)
  have hqq : q ≠ g.freshId := find_ne_of_some_none hq (Graph.find_freshId g)
  unfold ccFlagJoin
  simp only [hl, hr, h1, h2]
  refine ⟨_, rfl, ?_, ?_⟩
  · exact Graph.find_update_other
      (f := fun m => { m with children := m.children ++ [g.freshId] }) (fun _ => rfl)
      (Graph.find_update_other
        (f := fun m => { m with children := m.children ++ [g.freshId] }) (fun _ => rfl)
        (Graph.find_update_other
          (f := fun m => { m with children := m.children ++ [g.freshId] }) (fun _ => rfl)
          (Graph.find_add_new (Graph.find_freshId g) rfl) (Ne.symm hql))
        (Ne.symm hqr))
      (Ne.symm hqq)
  · exact preservesMeta_trans preservesMeta_add
      (preservesMeta_trans
        (preservesMeta_update (f := fun m => { m with children := m.children ++ [g.freshId] })
          (fun _ => rfl) (fun _ => rfl) (fun _ => rfl))
        (preservesMeta_trans
          (preservesMeta_update (f := fun m => { m with children := m.children ++ [g.freshId] })
            (fun _ => rfl) (fun _ => rfl) (fun _ => rfl))
          (preservesMeta_update (f := fun m => { m with children := m.children ++ [g.freshId] })
            (fun _ => rfl) (fun _ => rfl) (fun _ => rfl))))


/-- Claim C9, amended: for every graph, every HybridJoin node in it (any
`left_join_cols`, `right_join_cols`, stored-with sets and trusted party —
none of these appear among the hypotheses), and every counter value, the
non-leaky hybrid-join expansion resolves its key columns by the literal
column names `a` (left) and `c` (right) and secret-shares the flags
relation with the fixed party set `{1, 2, 3}`: whenever the left input has
a column named `a` and the right input a column named `c`, the expansion
succeeds and its result contains a `left_keys_closed` projection selecting
exactly `["a"]`, a `right_keys_closed` projection selecting exactly
`["c"]`, and a `flags_closed` node stored with `{1, 2, 3}`; and whenever
the left input has no column named `a` or the right input no column named
`c`, the expansion fails with an error (the hard-coded column reference
does not resolve). -/
theorem claim_C9_amended {g : Graph} {i ctr : Nat} {n ln rn : Node} {lp rp : Nat}
    (hn : g.find i = some n)
    (hlp : n.parents.get? 0 = some lp) (hrp : n.parents.get? 1 = some rp)
    (hlpn : g.find lp = some ln) (hrpn : g.find rp = some rn) :
    (∀ ca cb : Col,
      ln.out_rel.cols.find? (fun c => c.name = "a") = some ca →
      rn.out_rel.cols.find? (fun c => c.name = "c") = some cb →
      ∃ w, expandHybridJoinNonLeaky g i ctr = Except.ok w ∧
        (∃ m, m ∈ w.nodes ∧
          m.out_rel.name = "left_keys_closed" ++ ("_hybrid_join_" ++ toString ctr) ∧
          m.selected_cols = ["a"]) ∧
        (∃ m, m ∈ w.nodes ∧
          m.out_rel.name = "right_keys_closed" ++ ("_hybrid_join_" ++ toString ctr) ∧
          m.selected_cols = ["c"]) ∧
        (∃ m, m ∈ w.nodes ∧
          m.out_rel.name = "flags_closed" ++ ("_hybrid_join_" ++ toString ctr) ∧
          m.out_rel.stored_with = ({1, 2, 3} : Finset Nat))) ∧
    ((ln.out_rel.cols.find? (fun c => c.name = "a") = none ∨
      rn.out_rel.cols.find? (fun c => c.name = "c") = none) →
      ∃ e, expandHybridJoinNonLeaky g i ctr = Except.error e) := by
  constructor
  · intro ca cb hfa hfc
    have hca : ca.name = "a" := by
      have := List.find?_some hfa
      simpa using this
    have hcb : cb.name = "c" := by
      have := List.find?_some hfc
      simpa using this
    unfold expandHybridJoinNonLeaky
    simp only [hn, hlp, hrp]
    obtain ⟨G1, hE1, hF1, hP1⟩ :=
      ccShuffle_spec ("left_shuffled" ++ ("_hybrid_join_" ++ toString ctr)) hlpn
    simp only [hE1, bind_ok]
    set H1 : Graph := (G1.update g.freshId (fun m => { m with is_mpc := true })).update lp
      (fun m => { m with children := m.children.filter (fun x => x ≠ i) })
    have hU1 : PreservesMeta G1 H1 :=
      preservesMeta_trans
        (preservesMeta_update (f := fun m => { m with is_mpc := true })
          (fun _ => rfl) (fun _ => rfl) (fun _ => rfl))
        (preservesMeta_update
          (f := fun m => { m with children := m.children.filter (fun x => x ≠ i) })
          (fun _ => rfl) (fun _ => rfl) (fun _ => rfl))
    obtain ⟨q1, f1, n1, c1, w1, s1⟩ :=
      preservesMeta_fields (c := ln.out_rel.cols) hU1 hF1 rfl rfl rfl rfl
    obtain ⟨q0, f0, n0, c0, w0, s0⟩ :=
      preservesMeta_fields (c := rn.out_rel.cols)
        (preservesMeta_trans hP1 hU1) hrpn rfl rfl rfl rfl
    obtain ⟨G2, hE2, hF2, hP2⟩ :=
      ccShuffle_spec ("right_shuffled" ++ ("_hybrid_join_" ++ toString ctr)) f0
    simp only [hE2, bind_ok]
    set H2 : Graph := (G2.update H1.freshId (fun m => { m with is_mpc := true })).update rp
      (fun m => { m with children := m.children.filter (fun x => x ≠ i) })
    have hU2 : PreservesMeta G2 H2 :=
      preservesMeta_trans
        (preservesMeta_update (f := fun m => { m with is_mpc := true })
          (fun _ => rfl) (fun _ => rfl) (fun _ => rfl))
        (preservesMeta_update
          (f := fun m => { m with children := m.children.filter (fun x => x ≠ i) })
          (fun _ => rfl) (fun _ => rfl) (fun _ => rfl))
    have hS2 := preservesMeta_trans hP2 hU2
    obtain ⟨q2, f2, n2, c2, w2, s2⟩ :=
      preservesMeta_fields hU2 hF2 rfl c0 rfl rfl
    obtain ⟨q1, f1, n1, c1, w1, s1⟩ := preservesMeta_fields hS2 f1 n1 c1 w1 s1
    obtain ⟨G3, hE3, hF3, hP3⟩ :=
      ccPersist_spec ("left_persisted" ++ ("_hybrid_join_" ++ toString ctr)) f1
    simp only [hE3, bind_ok]
    set H3 : Graph := G3.update H2.freshId (fun m => { m with is_mpc := true })
    have hU3 : PreservesMeta G3 H3 :=
      preservesMeta_update (f := fun m => { m with is_mpc := true })
        (fun _ => rfl) (fun _ => rfl) (fun _ => rfl)
    have hS3 := preservesMeta_trans hP3 hU3
    obtain ⟨q3, f3, n3, c3, w3, s3⟩ := preservesMeta_fields hU3 hF3 rfl c1 rfl rfl
    obtain ⟨q1, f1, n1, c1, w1, s1⟩ := preservesMeta_fields hS3 f1 n1 c1 w1 s1
    obtain ⟨q2, f2, n2, c2, w2, s2⟩ := preservesMeta_fields hS3 f2 n2 c2 w2 s2
    obtain ⟨G4, hE4, hF4, hP4⟩ :=
      ccPersist_spec ("right_persisted" ++ ("_hybrid_join_" ++ toString ctr)) f2
    simp only [hE4, bind_ok]
    set H4 : Graph := G4.update H3.freshId (fun m => { m with is_mpc := true })
    have hU4 : PreservesMeta G4 H4 :=
      preservesMeta_update (f := fun m => { m with is_mpc := true })
        (fun _ => rfl) (fun _ => rfl) (fun _ => rfl)
    have hS4 := preservesMeta_trans hP4 hU4
    obtain ⟨q4, f4, n4, c4, w4, s4⟩ := preservesMeta_fields hU4 hF4 rfl c2 rfl rfl
    obtain ⟨q1, f1, n1, c1, w1, s1⟩ := preservesMeta_fields hS4 f1 n1 c1 w1 s1
    obtain ⟨q2, f2, n2, c2, w2, s2⟩ := preservesMeta_fields hS4 f2 n2 c2 w2 s2
    obtain ⟨q3, f3, n3, c3, w3, s3⟩ := preservesMeta_fields hS4 f3 n3 c3 w3 s3
    have hres5 : resolveCols q1.out_rel.cols ["a"] = some [ca] := by
      rw [c1, resolveCols_single, hfa]
      rfl
    obtain ⟨G5, hE5, hF5, hP5⟩ :=
      ccProject_spec ("left_keys_closed" ++ ("_hybrid_join_" ++ toString ctr)) f1 hres5
    simp only [hE5, bind_ok]
    set H5 : Graph := G5.update H4.freshId (fun m => { m with is_mpc := true })
    have hU5 : PreservesMeta G5 H5 :=
      preservesMeta_update (f := fun m => { m with is_mpc := true })
        (fun _ => rfl) (fun _ => rfl) (fun _ => rfl)
    have hS5 := preservesMeta_trans hP5 hU5
    obtain ⟨q5, f5, n5, c5, w5, s5⟩ :=
      preservesMeta_fields
        (b := "left_keys_closed" ++ ("_hybrid_join_" ++ toString ctr))
        (c := [{ ca with idx := 0 }]) (s := ["a"]) hU5 hF5 rfl rfl rfl rfl
    obtain ⟨q2, f2, n2, c2, w2, s2⟩ := preservesMeta_fields hS5 f2 n2 c2 w2 s2
    obtain ⟨q3, f3, n3, c3, w3, s3⟩ := preservesMeta_fields hS5 f3 n3 c3 w3 s3
    obtain ⟨q4, f4, n4, c4, w4, s4⟩ := preservesMeta_fields hS5 f4 n4 c4 w4 s4
    have hres6 : resolveCols q2.out_rel.cols ["c"] = some [cb] := by
      rw [c2, resolveCols_single, hfc]
      rfl
    obtain ⟨G6, hE6, hF6, hP6⟩ :=
      ccProject_spec ("right_keys_closed" ++ ("_hybrid_join_" ++ toString ctr)) f2 hres6
    simp only [hE6, bind_ok]
    set H6 : Graph := G6.update H5.freshId (fun m => { m with is_mpc := true })
    have hU6 : PreservesMeta G6 H6 :=
      preservesMeta_update (f := fun m => { m with is_mpc := true })
        (fun _ => rfl) (fun _ => rfl) (fun _ => rfl)
    have hS6 := preservesMeta_trans hP6 hU6
    obtain ⟨q6, f6, n6, c6, w6, s6⟩ :=
      preservesMeta_fields
        (b := "right_keys_closed" ++ ("_hybrid_join_" ++ toString ctr))
        (c := [{ cb with idx := 0 }]) (s := ["c"]) hU6 hF6 rfl rfl rfl rfl
    obtain ⟨q3, f3, n3, c3, w3, s3⟩ := preservesMeta_fields hS6 f3 n3 c3 w3 s3
    obtain ⟨q4, f4, n4, c4, w4, s4⟩ := preservesMeta_fields hS6 f4 n4 c4 w4 s4
    obtain ⟨q5, f5, n5, c5, w5, s5⟩ := preservesMeta_fields hS6 f5 n5 c5 w5 s5
    obtain ⟨G7, hE7, hF7, hP7⟩ :=
      ccOpen_spec ("left_keys_open" ++ ("_hybrid_join_" ++ toString ctr)) n.trusted_party f5
    simp only [hE7, bind_ok]
    set H7 : Graph := G7.update H6.freshId (fun m => { m with is_mpc := true })
    have hU7 : PreservesMeta G7 H7 :=
      preservesMeta_update (f := fun m => { m with is_mpc := true })
        (fun _ => rfl) (fun _ => rfl) (fun _ => rfl)
    have hS7 := preservesMeta_trans hP7 hU7
    obtain ⟨q7, f7, n7, c7, w7, s7⟩ := preservesMeta_fields hU7 hF7 rfl c5 rfl rfl
    obtain ⟨q3, f3, n3, c3, w3, s3⟩ := preservesMeta_fields hS7 f3 n3 c3 w3 s3
    obtain ⟨q4, f4, n4, c4, w4, s4⟩ := preservesMeta_fields hS7 f4 n4 c4 w4 s4
    obtain ⟨q5, f5, n5, c5, w5, s5⟩ := preservesMeta_fields hS7 f5 n5 c5 w5 s5
    obtain ⟨q6, f6, n6, c6, w6, s6⟩ := preservesMeta_fields hS7 f6 n6 c6 w6 s6
    obtain ⟨G8, hE8, hF8, hP8⟩ :=
      ccOpen_spec ("right_keys_open" ++ ("_hybrid_join_" ++ toString ctr)) n.trusted_party f6
    simp only [hE8, bind_ok]
    set H8 : Graph := G8.update H7.freshId (fun m => { m with is_mpc := true })
    have hU8 : PreservesMeta G8 H8 :=
      preservesMeta_update (f := fun m => { m with is_mpc := true })
        (fun _ => rfl) (fun _ => rfl) (fun _ => rfl)
    have hS8 := preservesMeta_trans hP8 hU8
    obtain ⟨q8, f8, n8, c8, w8, s8⟩ := preservesMeta_fields hU8 hF8 rfl c6 rfl rfl
    obtain ⟨q3, f3, n3, c3, w3, s3⟩ := preservesMeta_fields hS8 f3 n3 c3 w3 s3
    obtain ⟨q4, f4, n4, c4, w4, s4⟩ := preservesMeta_fields hS8 f4 n4 c4 w4 s4
    obtain ⟨q5, f5, n5, c5, w5, s5⟩ := preservesMeta_fields hS8 f5 n5 c5 w5 s5
    obtain ⟨q6, f6, n6, c6, w6, s6⟩ := preservesMeta_fields hS8 f6 n6 c6 w6 s6
    obtain ⟨q7, f7, n7, c7, w7, s7⟩ := preservesMeta_fields hS8 f7 n7 c7 w7 s7
    have hres9 : resolveCols q7.out_rel.cols ["a"] = some [{ ca with idx := 0 }] := by
      rw [c7]
      exact resolveCols_singleton (show ({ ca with idx := 0 } : Col).name = "a" from hca)
    obtain ⟨G9, hE9, hF9, hP9⟩ :=
      ccProject_spec ("left_dummy" ++ ("_hybrid_join_" ++ toString ctr)) f7 hres9
    simp only [hE9, bind_ok]
    set H9 : Graph := G9.update H8.freshId (fun m => { m with is_mpc := false })
    have hU9 : PreservesMeta G9 H9 :=
      preservesMeta_update (f := fun m => { m with is_mpc := false })
        (fun _ => rfl) (fun _ => rfl) (fun _ => rfl)
    have hS9 := preservesMeta_trans hP9 hU9
    obtain ⟨q9, f9, n9, c9, w9, s9⟩ :=
      preservesMeta_fields (c := [{ ca with idx := 0 }]) hU9 hF9 rfl rfl rfl rfl
    obtain ⟨q3, f3, n3, c3, w3, s3⟩ := preservesMeta_fields hS9 f3 n3 c3 w3 s3
    obtain ⟨q4, f4, n4, c4, w4, s4⟩ := preservesMeta_fields hS9 f4 n4 c4 w4 s4
    obtain ⟨q5, f5, n5, c5, w5, s5⟩ := preservesMeta_fields hS9 f5 n5 c5 w5 s5
    obtain ⟨q6, f6, n6, c6, w6, s6⟩ := preservesMeta_fields hS9 f6 n6 c6 w6 s6
    obtain ⟨q8, f8, n8, c8, w8, s8⟩ := preservesMeta_fields hS9 f8 n8 c8 w8 s8
    have hres10 : resolveCols q8.out_rel.cols ["c"] = some [{ cb with idx := 0 }] := by
      rw [c8]
      exact resolveCols_singleton (show ({ cb with idx := 0 } : Col).name = "c" from hcb)
    obtain ⟨G10, hE10, hF10, hP10⟩ :=
      ccProject_spec ("right_dummy" ++ ("_hybrid_join_" ++ toString ctr)) f8 hres10
    simp only [hE10, bind_ok]
    set H10 : Graph := G10.update H9.freshId (fun m => { m with is_mpc := false })
    have hU10 : PreservesMeta G10 H10 :=
      preservesMeta_update (f := fun m => { m with is_mpc := false })
        (fun _ => rfl) (fun _ => rfl) (fun _ => rfl)
    have hS10 := preservesMeta_trans hP10 hU10
    obtain ⟨q10, f10, n10, c10, w10, s10⟩ :=
      preservesMeta_fields (c := [{ cb with idx := 0 }]) hU10 hF10 rfl rfl rfl rfl
    obtain ⟨q3, f3, n3, c3, w3, s3⟩ := preservesMeta_fields hS10 f3 n3 c3 w3 s3
    obtain ⟨q4, f4, n4, c4, w4, s4⟩ := preservesMeta_fields hS10 f4 n4 c4 w4 s4
    obtain ⟨q5, f5, n5, c5, w5, s5⟩ := preservesMeta_fields hS10 f5 n5 c5 w5 s5
    obtain ⟨q6, f6, n6, c6, w6, s6⟩ := preservesMeta_fields hS10 f6 n6 c6 w6 s6
    obtain ⟨q9, f9, n9, c9, w9, s9⟩ := preservesMeta_fields hS10 f9 n9 c9 w9 s9
    have hres11a : resolveCols q9.out_rel.cols ["a"] = some [{ ca with idx := 0 }] := by
      rw [c9]
      exact resolveCols_singleton (show ({ ca with idx := 0 } : Col).name = "a" from hca)
    have hres11c : resolveCols q10.out_rel.cols ["c"] = some [{ cb with idx := 0 }] := by
      rw [c10]
      exact resolveCols_singleton (show ({ cb with idx := 0 } : Col).name = "c" from hcb)
    obtain ⟨G11, hE11, hF11, hP11⟩ :=
      ccJoinFlags_spec ("flags" ++ ("_hybrid_join_" ++ toString ctr)) f9 f10 hres11a hres11c
    simp only [hE11, bind_ok]
    set H11 : Graph := G11.update H10.freshId (fun m => { m with is_mpc := false })
    have hU11 : PreservesMeta G11 H11 :=
      preservesMeta_update (f := fun m => { m with is_mpc := false })
        (fun _ => rfl) (fun _ => rfl) (fun _ => rfl)
    have hS11 := preservesMeta_trans hP11 hU11
    obtain ⟨q11, f11, n11, c11, w11, s11⟩ := preservesMeta_fields hU11 hF11 rfl rfl rfl rfl
    obtain ⟨q3, f3, n3, c3, w3, s3⟩ := preservesMeta_fields hS11 f3 n3 c3 w3 s3
    obtain ⟨q4, f4, n4, c4, w4, s4⟩ := preservesMeta_fields hS11 f4 n4 c4 w4 s4
    obtain ⟨q5, f5, n5, c5, w5, s5⟩ := preservesMeta_fields hS11 f5 n5 c5 w5 s5
    obtain ⟨q6, f6, n6, c6, w6, s6⟩ := preservesMeta_fields hS11 f6 n6 c6 w6 s6
    obtain ⟨G12, hE12, hF12, hP12⟩ :=
      ccClose_spec ("flags_closed" ++ ("_hybrid_join_" ++ toString ctr))
        ({1, 2, 3} : Finset Nat) f11
    simp only [hE12, bind_ok]
    set H12 : Graph := G12.update H11.freshId (fun m => { m with is_mpc := true })
    have hU12 : PreservesMeta G12 H12 :=
      preservesMeta_update (f := fun m => { m with is_mpc := true })
        (fun _ => rfl) (fun _ => rfl) (fun _ => rfl)
    have hS12 := preservesMeta_trans hP12 hU12
    obtain ⟨q12, f12, n12, c12, w12, s12⟩ :=
      preservesMeta_fields
        (b := "flags_closed" ++ ("_hybrid_join_" ++ toString ctr))
        (w := ({1, 2, 3} : Finset Nat)) hU12 hF12 rfl rfl rfl rfl
    obtain ⟨q3, f3, n3, c3, w3, s3⟩ := preservesMeta_fields hS12 f3 n3 c3 w3 s3
    obtain ⟨q4, f4, n4, c4, w4, s4⟩ := preservesMeta_fields hS12 f4 n4 c4 w4 s4
    obtain ⟨q5, f5, n5, c5, w5, s5⟩ := preservesMeta_fields hS12 f5 n5 c5 w5 s5
    obtain ⟨q6, f6, n6, c6, w6, s6⟩ := preservesMeta_fields hS12 f6 n6 c6 w6 s6
    have hres13a : resolveCols q3.out_rel.cols ["a"] = some [ca] := by
      rw [c3, resolveCols_single, hfa]
      rfl
    have hres13c : resolveCols q4.out_rel.cols ["c"] = some [cb] := by
      rw [c4, resolveCols_single, hfc]
      rfl
    obtain ⟨G13, hE13, hF13, hP13⟩ :=
      ccFlagJoin_spec (n.out_rel.name) f3 f4 f12 hres13a hres13c
    simp only [hE13, bind_ok]
    set F : Graph :=
      ((G13.sortedChildren n).foldl (fun a c => a.replaceParent c i H12.freshId)
        G13).update H12.freshId (fun m => { m with children := n.children })
    have hU13 : PreservesMeta G13 F :=
      preservesMeta_trans
        (preservesMeta_foldReplace (G13.sortedChildren n) i H12.freshId)
        (preservesMeta_update (f := fun m => { m with children := n.children })
          (fun _ => rfl) (fun _ => rfl) (fun _ => rfl))
    have hS13 := preservesMeta_trans hP13 hU13
    obtain ⟨y5, g5, m5, d5, x5, t5⟩ := preservesMeta_fields hS13 f5 n5 c5 w5 s5
    obtain ⟨y6, g6, m6, d6, x6, t6⟩ := preservesMeta_fields hS13 f6 n6 c6 w6 s6
    obtain ⟨y12, g12, m12, d12, x12, t12⟩ := preservesMeta_fields hS13 f12 n12 c12 w12 s12
    refine ⟨F, rfl, ⟨y5, Graph.find_some_mem g5, m5, t5⟩,
      ⟨y6, Graph.find_some_mem g6, m6, t6⟩,
      ⟨y12, Graph.find_some_mem g12, m12, x12⟩⟩
  · intro hor
    unfold expandHybridJoinNonLeaky
    simp only [hn, hlp, hrp]
    obtain ⟨G1, hE1, hF1, hP1⟩ :=
      ccShuffle_spec ("left_shuffled" ++ ("_hybrid_join_" ++ toString ctr)) hlpn
    simp only [hE1, bind_ok]
    set H1 : Graph := (G1.update g.freshId (fun m => { m with is_mpc := true })).update lp
      (fun m => { m with children := m.children.filter (fun x => x ≠ i) })
    have hU1 : PreservesMeta G1 H1 :=
      preservesMeta_trans
        (preservesMeta_update (f := fun m => { m with is_mpc := true })
          (fun _ => rfl) (fun _ => rfl) (fun _ => rfl))
        (preservesMeta_update
          (f := fun m => { m with children := m.children.filter (fun x => x ≠ i) })
          (fun _ => rfl) (fun _ => rfl) (fun _ => rfl))
    obtain ⟨q1, f1, n1, c1, w1, s1⟩ :=
      preservesMeta_fields (c := ln.out_rel.cols) hU1 hF1 rfl rfl rfl rfl
    obtain ⟨q0, f0, n0, c0, w0, s0⟩ :=
      preservesMeta_fields (c := rn.out_rel.cols)
        (preservesMeta_trans hP1 hU1) hrpn rfl rfl rfl rfl
    obtain ⟨G2, hE2, hF2, hP2⟩ :=
      ccShuffle_spec ("right_shuffled" ++ ("_hybrid_join_" ++ toString ctr)) f0
    simp only [hE2, bind_ok]
    set H2 : Graph := (G2.update H1.freshId (fun m => { m with is_mpc := true })).update rp
      (fun m => { m with children := m.children.filter (fun x => x ≠ i) })
    have hU2 : PreservesMeta G2 H2 :=
      preservesMeta_trans
        (preservesMeta_update (f := fun m => { m with is_mpc := true })
          (fun _ => rfl) (fun _ => rfl) (fun _ => rfl))
        (preservesMeta_update
          (f := fun m => { m with children := m.children.filter (fun x => x ≠ i) })
          (fun _ => rfl) (fun _ => rfl) (fun _ => rfl))
    have hS2 := preservesMeta_trans hP2 hU2
    obtain ⟨q2, f2, n2, c2, w2, s2⟩ :=
      preservesMeta_fields hU2 hF2 rfl c0 rfl rfl
    obtain ⟨q1, f1, n1, c1, w1, s1⟩ := preservesMeta_fields hS2 f1 n1 c1 w1 s1
    obtain ⟨G3, hE3, hF3, hP3⟩ :=
      ccPersist_spec ("left_persisted" ++ ("_hybrid_join_" ++ toString ctr)) f1
    simp only [hE3, bind_ok]
    set H3 : Graph := G3.update H2.freshId (fun m => { m with is_mpc := true })
    have hU3 : PreservesMeta G3 H3 :=
      preservesMeta_update (f := fun m => { m with is_mpc := true })
        (fun _ => rfl) (fun _ => rfl) (fun _ => rfl)
    have hS3 := preservesMeta_trans hP3 hU3
    obtain ⟨q3, f3, n3, c3, w3, s3⟩ := preservesMeta_fields hU3 hF3 rfl c1 rfl rfl
    obtain ⟨q1, f1, n1, c1, w1, s1⟩ := preservesMeta_fields hS3 f1 n1 c1 w1 s1
    obtain ⟨q2, f2, n2, c2, w2, s2⟩ := preservesMeta_fields hS3 f2 n2 c2 w2 s2
    obtain ⟨G4, hE4, hF4, hP4⟩ :=
      ccPersist_spec ("right_persisted" ++ ("_hybrid_join_" ++ toString ctr)) f2
    simp only [hE4, bind_ok]
    set H4 : Graph := G4.update H3.freshId (fun m => { m with is_mpc := true })
    have hU4 : PreservesMeta G4 H4 :=
      preservesMeta_update (f := fun m => { m with is_mpc := true })
        (fun _ => rfl) (fun _ => rfl) (fun _ => rfl)
    have hS4 := preservesMeta_trans hP4 hU4
    obtain ⟨q4, f4, n4, c4, w4, s4⟩ := preservesMeta_fields hU4 hF4 rfl c2 rfl rfl
    obtain ⟨q1, f1, n1, c1, w1, s1⟩ := preservesMeta_fields hS4 f1 n1 c1 w1 s1
    obtain ⟨q2, f2, n2, c2, w2, s2⟩ := preservesMeta_fields hS4 f2 n2 c2 w2 s2
    obtain ⟨q3, f3, n3, c3, w3, s3⟩ := preservesMeta_fields hS4 f3 n3 c3 w3 s3
    cases hfa : ln.out_rel.cols.find? (fun c => c.name = "a") with
    | none =>
      have hres : resolveCols q1.out_rel.cols ["a"] = none := by
        rw [c1, resolveCols_single, hfa]
        rfl
      have hE5 :=
        ccProject_fails ("left_keys_closed" ++ ("_hybrid_join_" ++ toString ctr)) f1 hres
      simp only [hE5, bind_err]
      exact ⟨_, rfl⟩
    | some ca =>
      have hres5 : resolveCols q1.out_rel.cols ["a"] = some [ca] := by
        rw [c1, resolveCols_single, hfa]
        rfl
      obtain ⟨G5, hE5, hF5, hP5⟩ :=
        ccProject_spec ("left_keys_closed" ++ ("_hybrid_join_" ++ toString ctr)) f1 hres5
      simp only [hE5, bind_ok]
      set H5 : Graph := G5.update H4.freshId (fun m => { m with is_mpc := true })
      have hU5 : PreservesMeta G5 H5 :=
        preservesMeta_update (f := fun m => { m with is_mpc := true })
          (fun _ => rfl) (fun _ => rfl) (fun _ => rfl)
      have hS5 := preservesMeta_trans hP5 hU5
      obtain ⟨q2, f2, n2, c2, w2, s2⟩ := preservesMeta_fields hS5 f2 n2 c2 w2 s2
      have hfcn : rn.out_rel.cols.find? (fun c => c.name = "c") = none := by
        rcases hor with h | h
        · rw [hfa] at h
          exact Option.noConfusion h
        · exact h
      have hres6 : resolveCols q2.out_rel.cols ["c"] = none := by
        rw [c2, resolveCols_single, hfcn]
        rfl
      have hE6 :=
        ccProject_fails ("right_keys_closed" ++ ("_hybrid_join_" ++ toString ctr)) f2 hres6
      simp only [hE6, bind_err]
      exact ⟨_, rfl⟩

/-- Witness for claim C9: on the scenario-S5 instance (keys named `a`/`c`)
the expansion succeeds with the three hard-coded artefacts, and on a
HybridJoin whose left input has no column named `a` it errors. -/
theorem claim_C9_amended_witness :
    (∃ w, expandHybridJoinNonLeaky c2Graph 3 1 = Except.ok w ∧
      (∃ m, m ∈ w.nodes ∧
        m.out_rel.name = "left_keys_closed" ++ ("_hybrid_join_" ++ toString 1) ∧
        m.selected_cols = ["a"]) ∧
      (∃ m, m ∈ w.nodes ∧
        m.out_rel.name = "right_keys_closed" ++ ("_hybrid_join_" ++ toString 1) ∧
        m.selected_cols = ["c"]) ∧
      (∃ m, m ∈ w.nodes ∧
        m.out_rel.name = "flags_closed" ++ ("_hybrid_join_" ++ toString 1) ∧
        m.out_rel.stored_with = ({1, 2, 3} : Finset Nat))) ∧
    (∃ e, expandHybridJoinNonLeaky c9NoA 3 1 = Except.error e) :=

  ⟨(@claim_C9_amended c2Graph 3 1 {
      id := 3, kind := .hybridJoin, out_rel := ⟨"joined", [⟨"a", 0, ∅⟩], {1, 2}⟩,
      parents := [1, 2], children := [4, 5], is_mpc := true,
      left_join_cols := ["a"], right_join_cols := ["c"], trusted_party := 1 } {
      id := 1, kind := .create, out_rel := ⟨"left", [⟨"a", 0, ∅⟩, ⟨"b", 1, ∅⟩], {1}⟩,
      parents := [], children := [3], is_mpc := false } {
      id := 2, kind := .create, out_rel := ⟨"right", [⟨"c", 0, ∅⟩, ⟨"d", 1, ∅⟩], {2}⟩,
      parents := [], children := [3], is_mpc := false }
      1 2 rfl rfl rfl rfl rfl).1 ⟨"a", 0, ∅⟩ ⟨"c", 0, ∅⟩ rfl rfl,
   (@claim_C9_amended c9NoA 3 1 {
      id := 3, kind := .hybridJoin, out_rel := ⟨"joined", [⟨"k", 0, ∅⟩], {1, 2}⟩,
      parents := [1, 2], children := [4, 5], is_mpc := true,
      left_join_cols := ["k"], right_join_cols := ["m"], trusted_party := 1 } {
      id := 1, kind := .create, out_rel := ⟨"left", [⟨"k", 0, ∅⟩, ⟨"b", 1, ∅⟩], {1}⟩,
      parents := [], children := [3], is_mpc := false } {
      id := 2, kind := .create, out_rel := ⟨"right", [⟨"m", 0, ∅⟩, ⟨"c", 1, ∅⟩], {2}⟩,
      parents := [], children := [3], is_mpc := false }
      1 2 rfl rfl rfl rfl rfl).2 (Or.inl rfl)⟩


end Conclave
